import Mathlib

/-!
Shallow embedding of the `sync-map-generic` repository: a generic
`sync.Map`-style concurrent associative container.  The entry cell state
machine comes from the `entry[T]` type (atomic pointer holding `nil`, the
`expunged` sentinel, or a live `*T`); the map controller comes from
`VMap`/`KVMap` (`v-map.go` and the generic key-typed variant, which are
textually identical up to the key type, so they are embedded once,
parameterized by the key type `K`).

The embedding is sequential: each public operation is a function from the
map state to (result, new state).  Atomic compare-and-swap loops always
succeed on first attempt in a single-threaded execution, and the mutex is
a no-op, so a locked re-check of the read snapshot re-reads the same
state.  Pointers (`*T` values) are modelled by `Ptr`: the nil pointer,
the package-private `expunged` sentinel, or a live allocation identified
by its address; pointer comparison is `Ptr` equality, which matches Go's
reference identity of handles.  Entry cells are shared by reference
between the read map and the dirty map, so the state carries a heap of
cells (`List Ptr`) and both maps bind keys to cell indices.
-/

set_option linter.unusedVariables false
set_option linter.unusedSectionVars false

namespace SyncMapGeneric

/-- Pointer values held by an entry cell: the nil pointer, the private
`expunged` sentinel, or a live value handle identified by its address. -/
inductive Ptr where
  | null : Ptr
  | expunged : Ptr
  | mk (addr : Nat) : Ptr
deriving DecidableEq, Repr

/-- A pointer is a live handle when it is neither nil nor expunged. -/
def Ptr.isLive : Ptr → Bool
  | .mk _ => true
  | _ => false

variable {K K2 : Type} [DecidableEq K] [DecidableEq K2]

/-- Lookup in a Go map modelled as an association list of key/cell-index
bindings (first binding wins; all reachable lists have distinct keys). -/
def alookup : List (K × Nat) → K → Option Nat
  | [], _ => none
  | p :: l, k => if p.1 = k then some p.2 else alookup l k

/-- Go map assignment `m[k] = e`: replace the binding of `k`, or append. -/
def ainsert : List (K × Nat) → K → Nat → List (K × Nat)
  | [], k, e => [(k, e)]
  | p :: l, k, e => if p.1 = k then (k, e) :: l else p :: ainsert l k e

/-- Go map deletion `delete(m, k)`. -/
def aerase : List (K × Nat) → K → List (K × Nat)
  | [], _ => []
  | p :: l, k => if p.1 = k then l else p :: aerase l k

/-- The whole state of a `VMap[T]`/`KVMap[K, V]`: the heap of shared entry
cells, the read-only snapshot (`read.m` and `read.amended`), the dirty
map (`none` models the nil Go map), and the miss counter. -/
structure MState (K : Type) where
  heap : List Ptr
  readm : List (K × Nat)
  amended : Bool
  dirty : Option (List (K × Nat))
  misses : Nat
deriving DecidableEq, Repr

/-- Read the current pointer of entry cell `e` (`e.p.Load()`). -/
def getE (s : MState K) (e : Nat) : Ptr :=
  s.heap.getD e .null

/-- Write entry cell `e` (an atomic store/successful CAS on `e.p`). -/
def setE (s : MState K) (e : Nat) (p : Ptr) : MState K :=
  { s with heap := s.heap.set e p }

/-- The dirty map's bindings, empty when the dirty map is nil. -/
def dirtyL (s : MState K) : List (K × Nat) :=
  s.dirty.getD []

/-- Lookup `m.dirty[key]` (the nil map has no bindings). -/
def dlookup (s : MState K) (k : K) : Option Nat :=
  match s.dirty with
  | none => none
  | some d => alookup d k

/-- Assignment `m.dirty[key] = e` (reachable callers have a non-nil dirty
map; on the nil map the assignment is left inert). -/
def dinsert (s : MState K) (k : K) (e : Nat) : MState K :=
  { s with dirty := s.dirty.map (fun d => ainsert d k e) }

/-- Deletion `delete(m.dirty, key)` (a no-op on the nil map). -/
def derase (s : MState K) (k : K) : MState K :=
  { s with dirty := s.dirty.map (fun d => aerase d k) }

/-- Result of a cell load, `entry.load`: live handle with `ok`, otherwise
nil with `ok == false`. -/
def entryLoad : Ptr → Ptr × Bool
  | .mk a => (.mk a, true)
  | _ => (.null, false)

/-- Cell compare-and-swap, `entry.tryCompareAndSwap`: fails on a nil or
expunged cell or a mismatched old handle, else installs `nw`. -/
def tryCompareAndSwap (s : MState K) (e : Nat) (old nw : Ptr) : Bool × MState K :=
  match getE s e with
  | .null => (false, s)
  | .expunged => (false, s)
  | .mk a => if old = .mk a then (true, setE s e nw) else (false, s)

/-- The CAS `expunged -> nil` of `entry.unexpungeLocked`; reports whether
the cell was expunged (and so must be re-registered into the dirty map). -/
def unexpungeLocked (s : MState K) (e : Nat) : Bool × MState K :=
  if getE s e = .expunged then (true, setE s e .null) else (false, s)

/-- Unconditional swap of `entry.swapLocked`, returning the old pointer. -/
def swapLocked (s : MState K) (e : Nat) (v : Ptr) : Ptr × MState K :=
  (getE s e, setE s e v)

/-- Cell-level `entry.tryLoadOrStore`: result is ((actual, loaded), ok).
An expunged cell refuses (`ok == false`); a live cell returns its handle
with `loaded`; a nil cell installs the candidate. -/
def tryLoadOrStore (s : MState K) (e : Nat) (v : Ptr) : (Ptr × Bool × Bool) × MState K :=
  match getE s e with
  | .expunged => ((.null, false, false), s)
  | .mk a => ((.mk a, true, true), s)
  | .null => ((v, false, true), setE s e v)

/-- Cell-level `entry.delete`: CAS a live cell to nil and return the old
handle; a nil or expunged cell is left alone. -/
def entryDelete (s : MState K) (e : Nat) : (Ptr × Bool) × MState K :=
  match getE s e with
  | .null => ((.null, false), s)
  | .expunged => ((.null, false), s)
  | .mk a => ((.mk a, true), setE s e .null)

/-- Cell-level `entry.trySwap`: refuses on an expunged cell, otherwise
swaps in `v` and returns the old pointer. -/
def trySwap (s : MState K) (e : Nat) (v : Ptr) : Option Ptr × MState K :=
  match getE s e with
  | .expunged => (none, s)
  | p => (some p, setE s e v)

/-- Cell-level `entry.tryExpungeLocked` acting on a raw heap: a nil cell
is CASed to expunged; the report says whether the final state is
expunged (so the caller omits the cell from the new dirty map). -/
def tryExpungeH (hp : List Ptr) (e : Nat) : Bool × List Ptr :=
  match hp.getD e .null with
  | .null => (true, hp.set e .expunged)
  | .expunged => (true, hp)
  | .mk _ => (false, hp)

/-- The loop body of `VMap.dirtyLocked`: walk the read snapshot,
expunging nil cells and collecting the surviving bindings. -/
def expungeFold (acc : List Ptr × List (K × Nat)) : List (K × Nat) → List Ptr × List (K × Nat)
  | [] => acc
  | p :: rest =>
    let r := tryExpungeH acc.1 p.2
    expungeFold (r.2, if r.1 then acc.2 else acc.2 ++ [p]) rest

/-- `VMap.dirtyLocked`: when the dirty map is nil, rebuild it from the
read snapshot, omitting (and expunging) the deleted cells. -/
def dirtyLocked (s : MState K) : MState K :=
  match s.dirty with
  | some _ => s
  | none =>
    let r := expungeFold (s.heap, []) s.readm
    { s with heap := r.1, dirty := some r.2 }

/-- `VMap.missLocked`: count a miss and, once the count is no longer
below the dirty map's size, promote the dirty map to be the new read
snapshot (not amended), drop the dirty map and reset the counter. -/
def missLocked (s : MState K) : MState K :=
  if s.misses + 1 < (dirtyL s).length then { s with misses := s.misses + 1 }
  else { s with readm := dirtyL s, amended := false, dirty := none, misses := 0 }

/-- `VMap.Load`: snapshot lookup, falling back to the dirty map (with
miss accounting) when the snapshot is amended. -/
def Load (s : MState K) (k : K) : (Ptr × Bool) × MState K :=
  match alookup s.readm k with
  | some e => (entryLoad (getE s e), s)
  | none =>
    if s.amended then
      match dlookup s k with
      | some e =>
        let t := missLocked s
        (entryLoad (getE t e), t)
      | none => ((.null, false), missLocked s)
    else ((.null, false), s)

/-- The locked slow path of `VMap.LoadOrStore`. -/
def loadOrStoreSlow (s : MState K) (k : K) (v : Ptr) : (Ptr × Bool) × MState K :=
  match alookup s.readm k with
  | some e =>
    let u := unexpungeLocked s e
    let s1 := if u.1 then dinsert u.2 k e else u.2
    let r := tryLoadOrStore s1 e v
    ((r.1.1, r.1.2.1), r.2)
  | none =>
    match dlookup s k with
    | some e =>
      let r := tryLoadOrStore s e v
      ((r.1.1, r.1.2.1), missLocked r.2)
    | none =>
      let s1 := if s.amended then s else { dirtyLocked s with amended := true }
      let e := s1.heap.length
      ((v, false), dinsert { s1 with heap := s1.heap ++ [v] } k e)

/-- `VMap.LoadOrStore`: fast path through the snapshot cell when it
accepts, else the locked slow path. -/
def LoadOrStore (s : MState K) (k : K) (v : Ptr) : (Ptr × Bool) × MState K :=
  match alookup s.readm k with
  | some e =>
    let r := tryLoadOrStore s e v
    if r.1.2.2 then ((r.1.1, r.1.2.1), r.2) else loadOrStoreSlow s k v
  | none => loadOrStoreSlow s k v

/-- `VMap.LoadAndDelete`: same lookup as `Load`; a key resolved through
the dirty map is also removed from the dirty map before miss accounting;
the terminal action is the cell-level delete. -/
def LoadAndDelete (s : MState K) (k : K) : (Ptr × Bool) × MState K :=
  match alookup s.readm k with
  | some e => entryDelete s e
  | none =>
    if s.amended then
      let eo := dlookup s k
      let s1 := missLocked (derase s k)
      match eo with
      | some e => entryDelete s1 e
      | none => ((.null, false), s1)
    else ((.null, false), s)

/-- `VMap.Delete` is `LoadAndDelete` with the result discarded. -/
def Delete (s : MState K) (k : K) : MState K :=
  (LoadAndDelete s k).2

/-- The locked slow path of `VMap.Swap`: unexpunge-and-re-register a
snapshot cell, swap a dirty cell in place, or insert a fresh cell (after
building the dirty map and marking the snapshot amended if needed). -/
def swapSlow (s : MState K) (k : K) (v : Ptr) : (Ptr × Bool) × MState K :=
  match alookup s.readm k with
  | some e =>
    let u := unexpungeLocked s e
    let s1 := if u.1 then dinsert u.2 k e else u.2
    let r := swapLocked s1 e v
    if r.1 ≠ .null then ((r.1, true), r.2) else ((.null, false), r.2)
  | none =>
    match dlookup s k with
    | some e =>
      let r := swapLocked s e v
      if r.1 ≠ .null then ((r.1, true), r.2) else ((.null, false), r.2)
    | none =>
      let s1 := if s.amended then s else { dirtyLocked s with amended := true }
      let e := s1.heap.length
      ((.null, false), dinsert { s1 with heap := s1.heap ++ [v] } k e)

/-- `VMap.Swap`: fast path through a non-expunged snapshot cell, else the
locked slow path. -/
def Swap (s : MState K) (k : K) (v : Ptr) : (Ptr × Bool) × MState K :=
  match alookup s.readm k with
  | some e =>
    match trySwap s e v with
    | (some p, t) => if p = .null then ((.null, false), t) else ((p, true), t)
    | (none, _) => swapSlow s k v
  | none => swapSlow s k v

/-- `VMap.Store` is `Swap` with the result discarded. -/
def Store (s : MState K) (k : K) (v : Ptr) : MState K :=
  (Swap s k v).2

/-- `VMap.CompareAndSwap`: direct cell CAS when the key is in the
snapshot; an immediate failure when absent and not amended; otherwise the
locked path consults the dirty map and miss-accounts on a dirty hit. -/
def CompareAndSwap (s : MState K) (k : K) (old nw : Ptr) : Bool × MState K :=
  match alookup s.readm k with
  | some e => tryCompareAndSwap s e old nw
  | none =>
    if s.amended then
      match dlookup s k with
      | some e =>
        let r := tryCompareAndSwap s e old nw
        (r.1, missLocked r.2)
      | none => (false, s)
    else (false, s)

/-- The CAS-to-nil loop at the end of `VMap.CompareAndDelete`. -/
def cadLoop (s : MState K) (e : Nat) (old : Ptr) : Bool × MState K :=
  match getE s e with
  | .null => (false, s)
  | .expunged => (false, s)
  | .mk a => if old = .mk a then (true, setE s e .null) else (false, s)

/-- `VMap.CompareAndDelete`: the same lookup as `Load` (with miss
accounting when the dirty map is consulted), then a CAS-to-nil that fails
on a nil/expunged cell or a mismatched old handle. -/
def CompareAndDelete (s : MState K) (k : K) (old : Ptr) : Bool × MState K :=
  match alookup s.readm k with
  | some e => cadLoop s e old
  | none =>
    if s.amended then
      let eo := dlookup s k
      let s1 := missLocked s
      match eo with
      | some e => cadLoop s1 e old
      | none => (false, s1)
    else (false, s)

/-- The promotion at the head of `VMap.Range`: when the snapshot is
amended, the dirty map is promoted wholesale to be the new snapshot and
the miss counter is reset. -/
def rangePromote (s : MState K) : MState K :=
  if s.amended then { s with readm := dirtyL s, amended := false, dirty := none, misses := 0 }
  else s

/-- The iteration loop of `VMap.Range`: load each cell, skip the absent
ones, call the visitor, stop once it returns false.  The returned list
records the visited key/handle pairs in order. -/
def rangeIter (hp : List Ptr) (f : K → Ptr → Bool) : List (K × Nat) → List (K × Ptr)
  | [] => []
  | p :: rest =>
    match entryLoad (hp.getD p.2 .null) with
    | (v, true) => if f p.1 v then (p.1, v) :: rangeIter hp f rest else [(p.1, v)]
    | (_, false) => rangeIter hp f rest

/-- `VMap.Range`: promote an amended snapshot, then iterate the resulting
snapshot's cells. -/
def Range (s : MState K) (f : K → Ptr → Bool) : MState K × List (K × Ptr) :=
  let t := rangePromote s
  (t, rangeIter t.heap f t.readm)

/-- `VMap.Clear`: a no-op on an empty non-amended map, else publish an
empty snapshot, clear the dirty map in place and reset the miss counter. -/
def Clear (s : MState K) : MState K :=
  if s.readm = [] ∧ s.amended = false then s
  else { s with readm := [], amended := false,
                dirty := s.dirty.map (fun _ => ([] : List (K × Nat))), misses := 0 }

/-- Convert a public value argument (an optional handle address) to the
pointer it is passed as; public callers can never pass the private
expunged sentinel. -/
def toPtr : Option Nat → Ptr
  | none => .null
  | some a => .mk a

/-- One public operation of the container API, with keys of type `K`. -/
inductive Op (K : Type) where
  | loadOp (k : K)
  | storeOp (k : K) (v : Option Nat)
  | loadOrStoreOp (k : K) (v : Option Nat)
  | loadAndDeleteOp (k : K)
  | deleteOp (k : K)
  | swapOp (k : K) (v : Option Nat)
  | casOp (k : K) (old nw : Option Nat)
  | cadOp (k : K) (old : Option Nat)
  | rangeOp (f : K → Ptr → Bool)
  | clearOp

/-- The observable result of one public operation. -/
inductive Out (K : Type) where
  | unitO : Out K
  | valO (v : Ptr) (b : Bool) : Out K
  | boolO (b : Bool) : Out K
  | visitsO (l : List (K × Ptr)) : Out K
deriving DecidableEq, Repr

/-- Execute one public operation. -/
def step (s : MState K) : Op K → Out K × MState K
  | .loadOp k => let r := Load s k; (.valO r.1.1 r.1.2, r.2)
  | .storeOp k v => (.unitO, Store s k (toPtr v))
  | .loadOrStoreOp k v => let r := LoadOrStore s k (toPtr v); (.valO r.1.1 r.1.2, r.2)
  | .loadAndDeleteOp k => let r := LoadAndDelete s k; (.valO r.1.1 r.1.2, r.2)
  | .deleteOp k => (.unitO, Delete s k)
  | .swapOp k v => let r := Swap s k (toPtr v); (.valO r.1.1 r.1.2, r.2)
  | .casOp k o n => let r := CompareAndSwap s k (toPtr o) (toPtr n); (.boolO r.1, r.2)
  | .cadOp k o => let r := CompareAndDelete s k (toPtr o); (.boolO r.1, r.2)
  | .rangeOp f => let r := Range s f; (.visitsO r.2, r.1)
  | .clearOp => (.unitO, Clear s)

/-- Execute a sequence of public operations, collecting each result. -/
def runOps (s : MState K) : List (Op K) → List (Out K) × MState K
  | [] => ([], s)
  | op :: rest =>
    let r := step s op
    let rr := runOps r.2 rest
    (r.1 :: rr.1, rr.2)

/-- The zero value of the container: immediately usable, everything
empty, the dirty map nil. -/
def initState (K : Type) : MState K :=
  ⟨[], [], false, none, 0⟩

/-- Translate a state's keys through an injection `g` into another key
type; cells (and everything else) are untouched.  `KVMap[K, V]` and
`VMap[V]` are textually the same algorithm instantiated at key types `K`
and `any`; this translation relates a `KVMap` state to the `VMap` state
holding the same keys wrapped into the dynamic key type. -/
def keyMap (g : K → K2) (s : MState K) : MState K2 :=
  { heap := s.heap,
    readm := s.readm.map (fun p => (g p.1, p.2)),
    amended := s.amended,
    dirty := s.dirty.map (List.map (fun p => (g p.1, p.2))),
    misses := s.misses }

/-- Translate a public operation's keys through `g`; the `Range` visitor
unwraps keys with the retraction `g2` before calling the original one. -/
def opMap (g : K → K2) (g2 : K2 → K) : Op K → Op K2
  | .loadOp k => .loadOp (g k)
  | .storeOp k v => .storeOp (g k) v
  | .loadOrStoreOp k v => .loadOrStoreOp (g k) v
  | .loadAndDeleteOp k => .loadAndDeleteOp (g k)
  | .deleteOp k => .deleteOp (g k)
  | .swapOp k v => .swapOp (g k) v
  | .casOp k o n => .casOp (g k) o n
  | .cadOp k o => .cadOp (g k) o
  | .rangeOp f => .rangeOp (fun k2 p => f (g2 k2) p)
  | .clearOp => .clearOp

/-- Translate an observable result's keys through `g`. -/
def outMap (g : K → K2) : Out K → Out K2
  | .unitO => .unitO
  | .valO v b => .valO v b
  | .boolO b => .boolO b
  | .visitsO l => .visitsO (l.map (fun p => (g p.1, p.2)))

/-- The entry cell a `Load` of `k` would consult: the snapshot binding,
or the dirty binding when the snapshot is amended. -/
def visibleEntry (s : MState K) (k : K) : Option Nat :=
  match alookup s.readm k with
  | some e => some e
  | none => if s.amended then dlookup s k else none

/-- The observable result of a `Load` of `k` (no miss bookkeeping). -/
def loadRes (s : MState K) (k : K) : Ptr × Bool :=
  match visibleEntry s k with
  | some e => entryLoad (getE s e)
  | none => (.null, false)

/-- All key/cell bindings of the state, snapshot then dirty map. -/
def allB (s : MState K) : List (K × Nat) :=
  s.readm ++ dirtyL s

/-- The structural invariant of a reachable map state: distinct keys in
both maps, cell indices inside the heap, the dirty map present whenever
the snapshot is amended (and trivial when it is not), every expunged
snapshot cell absent from the dirty map, every non-expunged snapshot cell
present in it under the same shared cell, no expunged cell reachable from
the dirty map, and each cell owned by a single key. -/
def Inv (s : MState K) : Prop :=
  (s.readm.map Prod.fst).Nodup ∧
  ((dirtyL s).map Prod.fst).Nodup ∧
  (∀ p ∈ allB s, p.2 < s.heap.length) ∧
  (s.amended = true → s.dirty.isSome = true) ∧
  (s.amended = false → s.dirty = none ∨ (s.dirty = some [] ∧ s.readm = [])) ∧
  (∀ p ∈ s.readm, getE s p.2 = .expunged →
    s.dirty.isSome = true ∧ alookup (dirtyL s) p.1 = none) ∧
  (s.dirty.isSome = true → ∀ p ∈ s.readm, getE s p.2 ≠ .expunged →
    alookup (dirtyL s) p.1 = some p.2) ∧
  (∀ p ∈ dirtyL s, getE s p.2 ≠ .expunged) ∧
  (∀ p ∈ allB s, ∀ q ∈ allB s, p.2 = q.2 → p.1 = q.1)

/-- A concrete state with key 0 live in the snapshot (used by witnesses). -/
def exampleLive : MState Nat :=
  ⟨[.mk 5], [(0, 0)], false, none, 0⟩

/-- A concrete state with key 0 live only in the dirty map and key 9 live
in the snapshot (used by witnesses). -/
def exampleDirty : MState Nat :=
  ⟨[.mk 5, .mk 6], [(9, 1)], true, some [(9, 1), (0, 0)], 0⟩

/-- A concrete state where key 1's snapshot cell is expunged and omitted
from the dirty map (used by witnesses). -/
def exampleExpunged : MState Nat :=
  ⟨[.expunged, .mk 20], [(1, 0)], true, some [(2, 1)], 0⟩

/-- A concrete non-amended state with a deleted (nil) cell for key 1 and
no dirty map (used by witnesses). -/
def exampleAbsent : MState Nat :=
  ⟨[.null, .mk 7], [(1, 0), (2, 1)], false, none, 0⟩

/-- Lemmas about reading and writing heap slots. -/
theorem getDset_self (l : List Ptr) (e : Nat) (p : Ptr) (h : e < l.length) :
    (l.set e p).getD e .null = p := by
  simp [List.getD, List.getElem?_set_eq_of_lt, h]

theorem getDset_ne (l : List Ptr) (e e2 : Nat) (p : Ptr) (h : e ≠ e2) :
    (l.set e p).getD e2 .null = l.getD e2 .null := by
  simp [List.getD, List.getElem?_set_ne, h]

theorem set_oor (l : List Ptr) (e : Nat) (p : Ptr) (h : ¬ e < l.length) :
    l.set e p = l :=
  List.set_eq_of_length_le (by omega)

theorem getE_lt_of_ne_null (s : MState K) (e : Nat) (h : getE s e ≠ .null) :
    e < s.heap.length := by
  by_contra hc
  exact h (by simp [getE, List.getD, List.getElem?_eq_none (by omega : s.heap.length ≤ e)])

theorem getD_append_left (l l2 : List Ptr) (e : Nat) (h : e < l.length) :
    (l ++ l2).getD e .null = l.getD e .null := by
  simp [List.getD, List.getElem?_append_left h]

theorem getD_append_self (l : List Ptr) (p : Ptr) :
    (l ++ [p]).getD l.length .null = p := by
  simp [List.getD, List.getElem?_append_right (Nat.le_refl _)]

/-- Lemmas about association-list maps. -/
theorem alookup_ainsert_self (l : List (K × Nat)) (k : K) (e : Nat) :
    alookup (ainsert l k e) k = some e := by
  induction l with
  | nil => simp [alookup, ainsert]
  | cons p l ih =>
    by_cases h : p.1 = k
    · simp [alookup, ainsert, h]
    · simp [alookup, ainsert, h, ih]

theorem alookup_ainsert_ne (l : List (K × Nat)) (k k2 : K) (e : Nat) (h : k2 ≠ k) :
    alookup (ainsert l k e) k2 = alookup l k2 := by
  induction l with
  | nil => simp [alookup, ainsert, Ne.symm h]
  | cons p l ih =>
    by_cases hp : p.1 = k
    · subst hp
      simp [alookup, ainsert, Ne.symm h]
    · simp [alookup, ainsert, hp, ih]

theorem alookup_aerase_ne (l : List (K × Nat)) (k k2 : K) (h : k2 ≠ k) :
    alookup (aerase l k) k2 = alookup l k2 := by
  induction l with
  | nil => simp [aerase]
  | cons p l ih =>
    by_cases hp : p.1 = k
    · subst hp
      simp [alookup, aerase, Ne.symm h]
    · simp [alookup, aerase, hp, ih]

theorem alookup_eq_none (l : List (K × Nat)) (k : K) :
    alookup l k = none ↔ ∀ p ∈ l, p.1 ≠ k := by
  induction l with
  | nil => simp [alookup]
  | cons p l ih =>
    by_cases hp : p.1 = k <;> simp [alookup, hp, ih]

theorem alookup_mem (l : List (K × Nat)) (k : K) (e : Nat) (h : alookup l k = some e) :
    (k, e) ∈ l := by
  induction l with
  | nil => simp [alookup] at h
  | cons p l ih =>
    by_cases hp : p.1 = k
    · simp [alookup, hp] at h
      simp [← hp, ← h]
    · simp [alookup, hp] at h
      exact List.mem_cons_of_mem _ (ih h)

theorem mem_alookup (l : List (K × Nat)) (k : K) (e : Nat)
    (hd : (l.map Prod.fst).Nodup) (h : (k, e) ∈ l) : alookup l k = some e := by
  induction l with
  | nil => simp at h
  | cons p l ih =>
    simp only [List.map_cons, List.nodup_cons] at hd
    rcases List.mem_cons.1 h with h1 | h1
    · simp [alookup, ← h1]
    · have hne : p.1 ≠ k := by
        intro hc
        exact hd.1 (by simpa [← hc] using List.mem_map_of_mem Prod.fst h1)
      simp [alookup, hne, ih hd.2 h1]

theorem alookup_aerase_self (l : List (K × Nat)) (k : K)
    (hd : (l.map Prod.fst).Nodup) : alookup (aerase l k) k = none := by
  induction l with
  | nil => simp [aerase, alookup]
  | cons p l ih =>
    simp only [List.map_cons, List.nodup_cons] at hd
    by_cases hp : p.1 = k
    · subst hp
      rw [aerase]
      simp only [if_pos rfl]
      exact (alookup_eq_none l p.1).2 fun q hq hc =>
        hd.1 (by simpa [hc] using List.mem_map_of_mem Prod.fst hq)
    · simp [aerase, alookup, hp, ih hd.2]

theorem mem_ainsert (l : List (K × Nat)) (k : K) (e : Nat) (q : K × Nat)
    (h : q ∈ ainsert l k e) : q = (k, e) ∨ q ∈ l := by
  induction l with
  | nil => simpa [ainsert] using h
  | cons p l ih =>
    by_cases hp : p.1 = k
    · simp only [ainsert, if_pos hp] at h
      rcases List.mem_cons.1 h with h1 | h1
      · exact Or.inl h1
      · exact Or.inr (List.mem_cons_of_mem _ h1)
    · simp only [ainsert, if_neg hp] at h
      rcases List.mem_cons.1 h with h1 | h1
      · exact Or.inr (by simp [h1])
      · rcases ih h1 with h2 | h2
        · exact Or.inl h2
        · exact Or.inr (List.mem_cons_of_mem _ h2)

theorem ainsert_keys_nodup (l : List (K × Nat)) (k : K) (e : Nat)
    (hd : (l.map Prod.fst).Nodup) : ((ainsert l k e).map Prod.fst).Nodup := by
  induction l with
  | nil => simp [ainsert]
  | cons p l ih =>
    simp only [List.map_cons, List.nodup_cons] at hd
    by_cases hp : p.1 = k
    · subst hp
      simpa [ainsert] using hd
    · rw [ainsert, if_neg hp]
      simp only [List.map_cons, List.nodup_cons]
      refine ⟨?_, ih hd.2⟩
      intro hc
      rcases List.mem_map.1 hc with ⟨q, hq, hq2⟩
      rcases mem_ainsert l k e q hq with h1 | h1
      · exact hp (by rw [h1] at hq2; simpa using hq2.symm)
      · exact hd.1 (by rw [← hq2]; exact List.mem_map_of_mem Prod.fst h1)

theorem aerase_sublist (l : List (K × Nat)) (k : K) : (aerase l k).Sublist l := by
  induction l with
  | nil => simp [aerase]
  | cons p l ih =>
    by_cases hp : p.1 = k
    · simp only [aerase, hp, if_pos]
      exact List.sublist_cons_self p l
    · simpa [aerase, hp] using List.Sublist.cons₂ p ih

theorem aerase_keys_nodup (l : List (K × Nat)) (k : K)
    (hd : (l.map Prod.fst).Nodup) : ((aerase l k).map Prod.fst).Nodup :=
  ((aerase_sublist l k).map Prod.fst).nodup hd

theorem mem_aerase (l : List (K × Nat)) (k : K) (q : K × Nat) (h : q ∈ aerase l k) :
    q ∈ l :=
  (aerase_sublist l k).mem h

/-- Helper facts about `missLocked`. -/
theorem missLocked_heap (s : MState K) : (missLocked s).heap = s.heap := by
  unfold missLocked
  split <;> rfl

theorem missLocked_promote (s : MState K) (h : ¬ s.misses + 1 < (dirtyL s).length) :
    missLocked s = { s with readm := dirtyL s, amended := false, dirty := none, misses := 0 } := by
  unfold missLocked
  simp [h]

theorem missLocked_count (s : MState K) (h : s.misses + 1 < (dirtyL s).length) :
    missLocked s = { s with misses := s.misses + 1 } := by
  unfold missLocked
  simp [h]

/-- The observable component of `Load` is the pure `loadRes`. -/
theorem load_fst (s : MState K) (k : K) : (Load s k).1 = loadRes s k := by
  unfold Load loadRes visibleEntry
  cases h : alookup s.readm k with
  | some e => simp
  | none =>
    by_cases ha : s.amended
    · cases hd : dlookup s k with
      | some e => simp [ha, hd, getE, missLocked_heap]
      | none => simp [ha, hd]
    · simp [ha]

/-- Projections of the state-updating helpers. -/
@[simp] theorem setE_readm (s : MState K) (e : Nat) (p : Ptr) : (setE s e p).readm = s.readm := rfl

@[simp] theorem setE_amended (s : MState K) (e : Nat) (p : Ptr) : (setE s e p).amended = s.amended := rfl

@[simp] theorem setE_dirty (s : MState K) (e : Nat) (p : Ptr) : (setE s e p).dirty = s.dirty := rfl

@[simp] theorem setE_misses (s : MState K) (e : Nat) (p : Ptr) : (setE s e p).misses = s.misses := rfl

@[simp] theorem dinsert_readm (s : MState K) (k : K) (e : Nat) : (dinsert s k e).readm = s.readm := rfl

@[simp] theorem dinsert_amended (s : MState K) (k : K) (e : Nat) : (dinsert s k e).amended = s.amended := rfl

@[simp] theorem dinsert_heap (s : MState K) (k : K) (e : Nat) : (dinsert s k e).heap = s.heap := rfl

@[simp] theorem dinsert_misses (s : MState K) (k : K) (e : Nat) : (dinsert s k e).misses = s.misses := rfl

@[simp] theorem derase_readm (s : MState K) (k : K) : (derase s k).readm = s.readm := rfl

@[simp] theorem derase_amended (s : MState K) (k : K) : (derase s k).amended = s.amended := rfl

@[simp] theorem derase_heap (s : MState K) (k : K) : (derase s k).heap = s.heap := rfl

theorem dirtyLocked_readm (s : MState K) : (dirtyLocked s).readm = s.readm := by
  unfold dirtyLocked
  split <;> rfl

theorem dirtyLocked_amended (s : MState K) : (dirtyLocked s).amended = s.amended := by
  unfold dirtyLocked
  split <;> rfl

theorem dlookup_setE (s : MState K) (e : Nat) (p : Ptr) (k : K) :
    dlookup (setE s e p) k = dlookup s k := rfl

theorem dlookup_dinsert_self (s : MState K) (k : K) (e : Nat) (h : s.dirty.isSome = true) :
    dlookup (dinsert s k e) k = some e := by
  cases hdd : s.dirty with
  | none => rw [hdd] at h; simp at h
  | some d => simp [dlookup, dinsert, hdd, alookup_ainsert_self]

theorem dlookup_dinsert_ne (s : MState K) (k k2 : K) (e : Nat) (h : k2 ≠ k) :
    dlookup (dinsert s k e) k2 = dlookup s k2 := by
  cases hdd : s.dirty with
  | none => simp [dlookup, dinsert, hdd]
  | some d => simp [dlookup, dinsert, hdd, alookup_ainsert_ne _ _ _ _ h]

theorem getE_dinsert (s : MState K) (k : K) (e e2 : Nat) : getE (dinsert s k e) e2 = getE s e2 := rfl

/-- Heap-slot writes seen through `getE`. -/
theorem getE_setE_null (s : MState K) (e : Nat) : getE (setE s e .null) e = .null := by
  by_cases h : e < s.heap.length
  · exact getDset_self _ _ _ h
  · have h0 : getE s e = .null := by
      by_contra hc
      exact h (getE_lt_of_ne_null s e hc)
    simpa [getE, setE, set_oor _ _ _ h] using h0

theorem getE_setE (s : MState K) (e : Nat) (v : Ptr) (h : e < s.heap.length) :
    getE (setE s e v) e = v :=
  getDset_self _ _ _ h

theorem getE_setE_ne (s : MState K) (e e2 : Nat) (v : Ptr) (h : e ≠ e2) :
    getE (setE s e v) e2 = getE s e2 :=
  getDset_ne _ _ _ _ h

/-- Helper facts for theorem `c10_found_implies_nonnil`. -/
theorem entryLoad_true (p : Ptr) (h : (entryLoad p).2 = true) : (entryLoad p).1 ≠ .null := by
  cases p <;> simp_all [entryLoad]

theorem tryLoadOrStore_loaded (s : MState K) (e : Nat) (v : Ptr)
    (h : (tryLoadOrStore s e v).1.2.1 = true) : (tryLoadOrStore s e v).1.1 ≠ .null := by
  unfold tryLoadOrStore at *
  split at h <;> simp_all

theorem loadOrStoreSlow_loaded (s : MState K) (k : K) (v : Ptr)
    (h : (loadOrStoreSlow s k v).1.2 = true) : (loadOrStoreSlow s k v).1.1 ≠ .null := by
  unfold loadOrStoreSlow at *
  split at h
  · exact tryLoadOrStore_loaded _ _ _ h
  · split at h
    · exact tryLoadOrStore_loaded _ _ _ h
    · simp at h

theorem swapSlow_loaded (s : MState K) (k : K) (v : Ptr)
    (h : (swapSlow s k v).1.2 = true) : (swapSlow s k v).1.1 ≠ .null := by
  unfold swapSlow at *
  split at h
  · dsimp only at h ⊢
    split at h <;> split at h <;> simp_all
  · split at h
    · dsimp only at h ⊢
      split at h <;> simp_all
    · simp at h

/-- C10: whenever `Load`, `LoadOrStore`, `LoadAndDelete` or `Swap` reports
its found/loaded flag as true, the value handle it returns alongside is
non-nil; a nil handle is never paired with a positive flag, for any key
and any map state. -/
theorem c10_found_implies_nonnil (s : MState K) (k : K) (v : Ptr) :
    ((Load s k).1.2 = true → (Load s k).1.1 ≠ .null) ∧
    ((LoadOrStore s k v).1.2 = true → (LoadOrStore s k v).1.1 ≠ .null) ∧
    ((LoadAndDelete s k).1.2 = true → (LoadAndDelete s k).1.1 ≠ .null) ∧
    ((Swap s k v).1.2 = true → (Swap s k v).1.1 ≠ .null) := by
  refine ⟨?_, ?_, ?_, ?_⟩
  · intro h
    rw [load_fst] at *
    unfold loadRes at *
    split at h
    · exact entryLoad_true _ h
    · simp at h
  · intro h
    cases heq : alookup s.readm k with
    | some e =>
      by_cases hok : (tryLoadOrStore s e v).1.2.2 = true
      · simp only [LoadOrStore, heq, hok, if_true] at h ⊢
        exact tryLoadOrStore_loaded _ _ _ h
      · simp only [LoadOrStore, heq, hok, if_false, Bool.false_eq_true] at h ⊢
        · exact loadOrStoreSlow_loaded _ _ _ h
    | none =>
      simp only [LoadOrStore, heq] at h ⊢
      exact loadOrStoreSlow_loaded _ _ _ h
  · intro h
    cases heq : alookup s.readm k with
    | some e =>
      simp only [LoadAndDelete, heq] at h ⊢
      unfold entryDelete at *
      split at h <;> simp_all
    | none =>
      by_cases ha : s.amended = true
      · cases hd : dlookup s k with
        | some e =>
          simp only [LoadAndDelete, heq, ha, if_true, hd] at h ⊢
          unfold entryDelete at *
          split at h <;> simp_all
        | none =>
          simp only [LoadAndDelete, heq, ha, if_true, hd] at h ⊢
          simp at h
      · simp only [LoadAndDelete, heq, ha] at h ⊢
        simp at h
  · intro h
    cases heq : alookup s.readm k with
    | some e =>
      cases hts : trySwap s e v with
      | mk o t =>
        cases o with
        | some p =>
          by_cases hp : p = Ptr.null <;>
            simp only [Swap, heq, hts, hp, if_true, if_false] at h ⊢ <;> simp_all
        | none =>
          simp only [Swap, heq, hts] at h ⊢
          exact swapSlow_loaded _ _ _ h
    | none =>
      simp only [Swap, heq] at h ⊢
      exact swapSlow_loaded _ _ _ h

/-- Witness for `c10_found_implies_nonnil`: a state where key 0 is live, so
each of the four flags is really true. -/
theorem c10_found_implies_nonnil_witness :
    (Load exampleLive 0).1.1 ≠ .null ∧ (LoadOrStore exampleLive 0 (.mk 7)).1.1 ≠ .null ∧
    (LoadAndDelete exampleLive 0).1.1 ≠ .null ∧ (Swap exampleLive 0 (.mk 7)).1.1 ≠ .null :=
  ⟨(c10_found_implies_nonnil exampleLive 0 (.mk 7)).1 (by decide),
   (c10_found_implies_nonnil exampleLive 0 (.mk 7)).2.1 (by decide),
   (c10_found_implies_nonnil exampleLive 0 (.mk 7)).2.2.1 (by decide),
   (c10_found_implies_nonnil exampleLive 0 (.mk 7)).2.2.2 (by decide)⟩

/-- C6: storing a nil handle is a deletion: after `Store(k, nil)`, a
`Load(k)` reports not found with a nil pointer, whatever the prior state
of `k` (live, absent, expunged, dirty-only, or never present). -/
theorem c6_store_nil_deletes (s : MState K) (k : K) :
    (Load (Store s k .null) k).1 = (.null, false) := by
  rw [load_fst]
  unfold Store
  cases heq : alookup s.readm k with
  | some e =>
    cases hge : getE s e with
    | expunged =>
      have hts : trySwap s e Ptr.null = (none, s) := by simp [trySwap, hge]
      simp only [Swap, heq, hts, swapSlow, unexpungeLocked, hge, if_true, reduceIte]
      split <;>
        simp [loadRes, visibleEntry, heq, swapLocked, getE_setE_null, entryLoad]
    | null =>
      have hts : trySwap s e Ptr.null = (some Ptr.null, setE s e Ptr.null) := by
        simp [trySwap, hge]
      simp [Swap, heq, hts, loadRes, visibleEntry, getE_setE_null, entryLoad]
    | mk a =>
      have hts : trySwap s e Ptr.null = (some (Ptr.mk a), setE s e Ptr.null) := by
        simp [trySwap, hge]
      simp [Swap, heq, hts, loadRes, visibleEntry, getE_setE_null, entryLoad]
  | none =>
    cases hd : dlookup s k with
    | some e =>
      simp only [Swap, heq, swapSlow, hd]
      split <;>
      · by_cases ha : s.amended = true <;>
          simp [loadRes, visibleEntry, heq, swapLocked, getE_setE_null, dlookup_setE, hd,
            ha, entryLoad]
    | none =>
      simp only [Swap, heq, swapSlow, hd]
      by_cases ha : s.amended = true
      · simp only [ha, if_true, reduceIte]
        cases hdd : s.dirty with
        | none =>
          simp [loadRes, visibleEntry, heq, ha, dlookup, dinsert, hdd]
        | some d =>
          simp [loadRes, visibleEntry, heq, ha, dlookup, dinsert, hdd,
            alookup_ainsert_self, getE, getD_append_self, entryLoad]
      · simp only [ha, Bool.not_eq_true, reduceIte]
        cases hdd : s.dirty with
        | none =>
          simp only [dirtyLocked, hdd]
          simp [loadRes, visibleEntry, heq, dlookup, dinsert, dirtyLocked_readm,
            alookup_ainsert_self, getE, getD_append_self, entryLoad]
        | some d =>
          simp only [dirtyLocked, hdd]
          simp [loadRes, visibleEntry, heq, dlookup, dinsert, hdd,
            alookup_ainsert_self, getE, getD_append_self, entryLoad]

theorem dlookup_dirtyL (s : MState K) (k : K) : dlookup s k = alookup (dirtyL s) k := by
  cases hdd : s.dirty <;> simp [dlookup, dirtyL, hdd, alookup]

/-- C1: when key `k` is currently mapped to live handle `w`, a
`LoadOrStore(k, v)` returns exactly that handle with `alreadyPresent` set,
a subsequent `Load(k)` returns the identical handle, and no cell in the
heap is modified. -/
theorem c1_loadOrStore_existing_handle (s : MState K) (k : K) (e w : Nat) (v : Ptr)
    (he : visibleEntry s k = some e) (hw : getE s e = .mk w) :
    (LoadOrStore s k v).1 = (.mk w, true) ∧
    (Load (LoadOrStore s k v).2 k).1 = (.mk w, true) ∧
    ((LoadOrStore s k v).2).heap = s.heap := by
  cases heq : alookup s.readm k with
  | some e2 =>
    have he2 : e2 = e := by
      unfold visibleEntry at he
      rw [heq] at he
      simpa using he
    subst he2
    have hts : tryLoadOrStore s e2 v = ((.mk w, true, true), s) := by
      simp [tryLoadOrStore, hw]
    refine ⟨?_, ?_, ?_⟩ <;>
      simp [LoadOrStore, heq, hts, load_fst, loadRes, he, hw, entryLoad]
  | none =>
    have ha : s.amended = true := by
      unfold visibleEntry at he
      rw [heq] at he
      by_cases h : s.amended = true
      · exact h
      · simp [h] at he
    have hd : dlookup s k = some e := by
      unfold visibleEntry at he
      rw [heq] at he
      simpa [ha] using he
    have hts : tryLoadOrStore s e v = ((.mk w, true, true), s) := by
      simp [tryLoadOrStore, hw]
    have hout : LoadOrStore s k v = ((.mk w, true), missLocked s) := by
      simp [LoadOrStore, loadOrStoreSlow, heq, hd, hts]
    refine ⟨by simp [hout], ?_, by simp [hout, missLocked_heap]⟩
    rw [hout]
    rw [load_fst]
    unfold missLocked
    by_cases hm : s.misses + 1 < (dirtyL s).length
    · simp only [hm, if_true, reduceIte]
      have hw2 := hw
      simp only [getE, List.getD, List.get?_eq_getElem?] at hw2
      cases hdd : s.dirty with
      | none => simp [dlookup, hdd] at hd
      | some d =>
        simp only [dlookup, hdd] at hd
        simp [loadRes, visibleEntry, heq, ha, dlookup, hd, getE, hw2, entryLoad]
    · simp only [hm, if_false, reduceIte]
      have hda : alookup (dirtyL s) k = some e := by rw [← dlookup_dirtyL]; exact hd
      have hw2 := hw
      simp only [getE, List.getD, List.get?_eq_getElem?] at hw2
      simp [loadRes, visibleEntry, hda, getE, hw2, entryLoad]

/-- Witness for `c1_loadOrStore_existing_handle`: key 0 live only in the
dirty map with handle 5. -/
theorem c1_loadOrStore_existing_handle_witness :
    (LoadOrStore exampleDirty 0 (.mk 7)).1 = (.mk 5, true) ∧
    (Load (LoadOrStore exampleDirty 0 (.mk 7)).2 0).1 = (.mk 5, true) ∧
    ((LoadOrStore exampleDirty 0 (.mk 7)).2).heap = exampleDirty.heap :=
  c1_loadOrStore_existing_handle exampleDirty 0 0 5 (.mk 7) (by decide) (by decide)

theorem visibleEntry_setE (s : MState K) (e : Nat) (p : Ptr) (k : K) :
    visibleEntry (setE s e p) k = visibleEntry s k := rfl

theorem getE_missLocked (s : MState K) (e : Nat) : getE (missLocked s) e = getE s e := by
  simp [getE, missLocked_heap]

theorem visibleEntry_missLocked_dirty (s : MState K) (k : K) (e : Nat)
    (heq : alookup s.readm k = none) (ha : s.amended = true) (hd : dlookup s k = some e) :
    visibleEntry (missLocked s) k = some e := by
  unfold missLocked
  by_cases hm : s.misses + 1 < (dirtyL s).length
  · simp only [hm, reduceIte]
    cases hdd : s.dirty with
    | none => simp [dlookup, hdd] at hd
    | some d =>
      simp only [dlookup, hdd] at hd
      simp [visibleEntry, heq, ha, dlookup, hd]
  · simp only [hm, reduceIte]
    have hda : alookup (dirtyL s) k = some e := by rw [← dlookup_dirtyL]; exact hd
    simp [visibleEntry, hda]

theorem loadRes_missLocked_dirty (s : MState K) (k : K) (e : Nat)
    (heq : alookup s.readm k = none) (ha : s.amended = true) (hd : dlookup s k = some e) :
    loadRes (missLocked s) k = entryLoad (getE s e) := by
  have hv := visibleEntry_missLocked_dirty s k e heq ha hd
  simp [loadRes, hv, getE_missLocked]

theorem entryLoad_shape (p : Ptr) (h : p ≠ .expunged) : entryLoad p = (p, p.isLive) := by
  cases p <;> simp_all [entryLoad, Ptr.isLive]

theorem loadRes_setE_vis (s : MState K) (k : K) (e : Nat) (p : Ptr)
    (hvis : visibleEntry s k = some e) (hlt : e < s.heap.length) (hp : p ≠ .expunged) :
    loadRes (setE s e p) k = (p, p.isLive) := by
  simp [loadRes, visibleEntry_setE, hvis, getE_setE _ _ _ hlt, entryLoad_shape _ hp]

/-- C2: `CompareAndSwap(k, old, new)` succeeds exactly when `old` is the
identical live handle currently installed for `k`; on success a `Load(k)`
returns `new` (found unless `new` is nil).  `CompareAndDelete(k, old)`
succeeds under the identical condition, and after success `Load(k)`
reports not found. -/
theorem c2_cas_cad_handle_identity (s : MState K) (k : K) (old nw : Ptr) (hnw : nw ≠ .expunged) :
    ((CompareAndSwap s k old nw).1 = true ↔
      ∃ e a, visibleEntry s k = some e ∧ getE s e = .mk a ∧ old = .mk a) ∧
    ((CompareAndSwap s k old nw).1 = true →
      (Load (CompareAndSwap s k old nw).2 k).1 = (nw, nw.isLive)) ∧
    ((CompareAndDelete s k old).1 = true ↔
      ∃ e a, visibleEntry s k = some e ∧ getE s e = .mk a ∧ old = .mk a) ∧
    ((CompareAndDelete s k old).1 = true →
      (Load (CompareAndDelete s k old).2 k).1 = (.null, false)) := by
  cases heq : alookup s.readm k with
  | some e =>
    have hvis : visibleEntry s k = some e := by simp [visibleEntry, heq]
    cases hge : getE s e with
    | null =>
      refine ⟨?_, ?_, ?_, ?_⟩ <;>
        simp [CompareAndSwap, CompareAndDelete, heq, tryCompareAndSwap, cadLoop, hge, hvis]
    | expunged =>
      refine ⟨?_, ?_, ?_, ?_⟩ <;>
        simp [CompareAndSwap, CompareAndDelete, heq, tryCompareAndSwap, cadLoop, hge, hvis]
    | mk a =>
      have hlt : e < s.heap.length := getE_lt_of_ne_null s e (by simp [hge])
      by_cases hold : old = Ptr.mk a
      · have hcas : tryCompareAndSwap s e old nw = (true, setE s e nw) := by
          simp [tryCompareAndSwap, hge, hold]
        have hcad : cadLoop s e old = (true, setE s e .null) := by
          simp [cadLoop, hge, hold]
        refine ⟨?_, ?_, ?_, ?_⟩
        · simp [CompareAndSwap, heq, hcas, hvis, hge, hold]
          simp [tryCompareAndSwap, hge]
        · intro h
          simp only [CompareAndSwap, heq, hcas]
          rw [load_fst, loadRes_setE_vis s k e nw hvis hlt hnw]
        · simp [CompareAndDelete, heq, hcad, hvis, hge, hold]
          simp [cadLoop, hge]
        · intro h
          simp only [CompareAndDelete, heq, hcad]
          rw [load_fst, loadRes_setE_vis s k e .null hvis hlt (by simp)]
          simp [Ptr.isLive]
      · have hcas : tryCompareAndSwap s e old nw = (false, s) := by
          simp [tryCompareAndSwap, hge, hold]
        have hcad : cadLoop s e old = (false, s) := by
          simp [cadLoop, hge, hold]
        refine ⟨?_, ?_, ?_, ?_⟩
        · simp [CompareAndSwap, heq, hcas, hvis, hge, hold]
        · simp [CompareAndSwap, heq, hcas]
        · simp [CompareAndDelete, heq, hcad, hvis, hge, hold]
        · simp [CompareAndDelete, heq, hcad]
  | none =>
    by_cases ha : s.amended = true
    · cases hd : dlookup s k with
      | some e =>
        have hvis : visibleEntry s k = some e := by simp [visibleEntry, heq, ha, hd]
        have hgem : getE (missLocked s) e = getE s e := getE_missLocked s e
        cases hge : getE s e with
        | null =>
          refine ⟨?_, ?_, ?_, ?_⟩ <;>
            simp [CompareAndSwap, CompareAndDelete, heq, ha, hd, tryCompareAndSwap,
              cadLoop, hgem, hge, hvis]
        | expunged =>
          refine ⟨?_, ?_, ?_, ?_⟩ <;>
            simp [CompareAndSwap, CompareAndDelete, heq, ha, hd, tryCompareAndSwap,
              cadLoop, hgem, hge, hvis]
        | mk a =>
          have hlt : e < s.heap.length := getE_lt_of_ne_null s e (by simp [hge])
          by_cases hold : old = Ptr.mk a
          · have hcas : tryCompareAndSwap s e old nw = (true, setE s e nw) := by
              simp [tryCompareAndSwap, hge, hold]
            have hcad : cadLoop (missLocked s) e old = (true, setE (missLocked s) e .null) := by
              simp [cadLoop, hgem, hge, hold]
            refine ⟨?_, ?_, ?_, ?_⟩
            · simp [CompareAndSwap, heq, ha, hd, hcas, hvis, hge, hold]
              simp [tryCompareAndSwap, hge]
            · intro h
              simp only [CompareAndSwap, heq, ha, if_true, reduceIte, hd, hcas]
              rw [load_fst]
              rw [loadRes_missLocked_dirty (setE s e nw) k e heq ha hd]
              rw [getE_setE _ _ _ hlt, entryLoad_shape _ hnw]
            · simp [CompareAndDelete, heq, ha, hd, hcad, hvis, hge, hold]
              simp [cadLoop, hgem, hge]
            · intro h
              simp only [CompareAndDelete, heq, ha, if_true, reduceIte, hd, hcad]
              rw [load_fst]
              have hvm : visibleEntry (missLocked s) k = some e :=
                visibleEntry_missLocked_dirty s k e heq ha hd
              rw [loadRes_setE_vis (missLocked s) k e .null hvm
                (by rw [missLocked_heap]; exact hlt) (by simp)]
              simp [Ptr.isLive]
          · have hcas : tryCompareAndSwap s e old nw = (false, s) := by
              simp [tryCompareAndSwap, hge, hold]
            have hcad : cadLoop (missLocked s) e old = (false, missLocked s) := by
              simp [cadLoop, hgem, hge, hold]
            refine ⟨?_, ?_, ?_, ?_⟩
            · simp [CompareAndSwap, heq, ha, hd, hcas, hvis, hge, hold]
            · simp [CompareAndSwap, heq, ha, hd, hcas]
            · simp [CompareAndDelete, heq, ha, hd, hcad, hvis, hge, hold]
            · simp [CompareAndDelete, heq, ha, hd, hcad]
      | none =>
        have hvis : visibleEntry s k = none := by simp [visibleEntry, heq, ha, hd]
        refine ⟨?_, ?_, ?_, ?_⟩ <;>
          simp [CompareAndSwap, CompareAndDelete, heq, ha, hd, hvis]
    · have hvis : visibleEntry s k = none := by simp [visibleEntry, heq, ha]
      refine ⟨?_, ?_, ?_, ?_⟩ <;>
        simp [CompareAndSwap, CompareAndDelete, heq, ha, hvis]


/-- Witness for `c2_cas_cad_handle_identity` at a state with key 0 mapped
to live handle 5. -/
theorem c2_cas_cad_handle_identity_witness :
    ((CompareAndSwap exampleLive 0 (.mk 5) (.mk 7)).1 = true ↔
      ∃ e a, visibleEntry exampleLive 0 = some e ∧ getE exampleLive e = .mk a ∧
        (Ptr.mk 5) = .mk a) ∧
    ((CompareAndSwap exampleLive 0 (.mk 5) (.mk 7)).1 = true →
      (Load (CompareAndSwap exampleLive 0 (.mk 5) (.mk 7)).2 0).1 =
        (.mk 7, (Ptr.mk 7).isLive)) ∧
    ((CompareAndDelete exampleLive 0 (.mk 5)).1 = true ↔
      ∃ e a, visibleEntry exampleLive 0 = some e ∧ getE exampleLive e = .mk a ∧
        (Ptr.mk 5) = .mk a) ∧
    ((CompareAndDelete exampleLive 0 (.mk 5)).1 = true →
      (Load (CompareAndDelete exampleLive 0 (.mk 5)).2 0).1 = (.null, false)) :=
  c2_cas_cad_handle_identity exampleLive 0 (.mk 5) (.mk 7) (by decide)

/-- C4: a slow-path lookup that consults the dirty overlay updates the
state exactly by `missLocked`; when the incremented miss count is still
below the overlay's size only the counter changes, and when it reaches
the overlay's size the overlay is promoted to be the new snapshot
(`amended := false`), the overlay is unset and the counter resets to 0. -/
theorem c4_miss_accounting_promotion (s : MState K) (k : K)
    (h1 : alookup s.readm k = none) (h2 : s.amended = true) :
    (Load s k).2 = missLocked s ∧
    (s.misses + 1 < (dirtyL s).length →
      missLocked s = { s with misses := s.misses + 1 }) ∧
    (s.misses + 1 = (dirtyL s).length →
      missLocked s = { s with readm := dirtyL s, amended := false, dirty := none,
                              misses := 0 }) := by
  refine ⟨?_, ?_, ?_⟩
  · unfold Load
    rw [h1]
    simp only [h2, if_true, reduceIte]
    cases hd : dlookup s k <;> simp
  · intro hm
    exact missLocked_count s hm
  · intro hm
    exact missLocked_promote s (by omega)

/-- Witness for `c4_miss_accounting_promotion`: key 5 misses the snapshot
of an amended state. -/
theorem c4_miss_accounting_promotion_witness :
    (Load exampleDirty 5).2 = missLocked exampleDirty ∧
    (exampleDirty.misses + 1 < (dirtyL exampleDirty).length →
      missLocked exampleDirty = { exampleDirty with misses := exampleDirty.misses + 1 }) ∧
    (exampleDirty.misses + 1 = (dirtyL exampleDirty).length →
      missLocked exampleDirty =
        { exampleDirty with readm := dirtyL exampleDirty, amended := false, dirty := none,
                            misses := 0 }) :=
  c4_miss_accounting_promotion exampleDirty 5 (by decide) (by decide)

end SyncMapGeneric

namespace SyncMapGeneric

variable {K : Type} [DecidableEq K]

theorem alookup_filter_none (l : List (K × Nat)) (P : K × Nat → Bool) (p : K × Nat)
    (hd : (l.map Prod.fst).Nodup) (hm : p ∈ l) (hp : P p = false) :
    alookup (l.filter P) p.1 = none := by
  induction l with
  | nil => simp at hm
  | cons q l ih =>
    simp only [List.map_cons, List.nodup_cons] at hd
    rcases List.mem_cons.1 hm with h1 | h1
    · subst h1
      rw [List.filter_cons, hp]
      exact (alookup_eq_none _ _).2 fun r hr hc => by
        have : r ∈ l := List.mem_of_mem_filter hr
        exact hd.1 (by rw [← hc]; exact List.mem_map_of_mem Prod.fst this)
    · rw [List.filter_cons]
      by_cases hq : P q = true
      · rw [if_pos hq]
        have hne : q.1 ≠ p.1 := fun hc =>
          hd.1 (by rw [hc]; exact List.mem_map_of_mem Prod.fst h1)
        simp only [alookup, if_neg hne]
        exact ih hd.2 h1
      · rw [if_neg hq]
        exact ih hd.2 h1

theorem alookup_filter_some (l : List (K × Nat)) (P : K × Nat → Bool) (p : K × Nat)
    (hd : (l.map Prod.fst).Nodup) (hm : p ∈ l) (hp : P p = true) :
    alookup (l.filter P) p.1 = some p.2 := by
  induction l with
  | nil => simp at hm
  | cons q l ih =>
    simp only [List.map_cons, List.nodup_cons] at hd
    rcases List.mem_cons.1 hm with h1 | h1
    · subst h1
      rw [List.filter_cons, if_pos hp]
      simp [alookup]
    · rw [List.filter_cons]
      by_cases hq : P q = true
      · rw [if_pos hq]
        have hne : q.1 ≠ p.1 := fun hc =>
          hd.1 (by rw [hc]; exact List.mem_map_of_mem Prod.fst h1)
        simp only [alookup, if_neg hne]
        exact ih hd.2 h1
      · rw [if_neg hq]
        exact ih hd.2 h1

theorem expungeFold_spec (l : List (K × Nat)) (hp : List Ptr) (acc : List (K × Nat))
    (hids : ∀ p ∈ l, p.2 < hp.length) :
    (expungeFold (hp, acc) l).1.length = hp.length ∧
    (∀ e2, (expungeFold (hp, acc) l).1.getD e2 .null =
      if e2 ∈ l.map Prod.snd ∧ hp.getD e2 .null = .null then .expunged
      else hp.getD e2 .null) ∧
    (expungeFold (hp, acc) l).2 = acc ++ l.filter (fun p => (hp.getD p.2 .null).isLive) := by
  induction l generalizing hp acc with
  | nil => simp [expungeFold]
  | cons p rest ih =>
    have hplt : p.2 < hp.length := hids p (by simp)
    cases hgp : hp.getD p.2 .null with
    | null =>
      have htE : tryExpungeH hp p.2 = (true, hp.set p.2 .expunged) := by
        unfold tryExpungeH
        rw [hgp]
      have hstep : expungeFold (hp, acc) (p :: rest) =
          expungeFold (hp.set p.2 .expunged, acc) rest := by
        rw [expungeFold, htE]
        rfl
      rw [hstep]
      have hids2 : ∀ q ∈ rest, q.2 < (hp.set p.2 .expunged).length := by
        intro q hq
        rw [List.length_set]
        exact hids q (by simp [hq])
      obtain ⟨ihlen, ihget, ihd⟩ := ih (hp.set p.2 .expunged) acc hids2
      refine ⟨by rw [ihlen, List.length_set], ?_, ?_⟩
      · intro e2
        rw [ihget e2]
        by_cases he2 : e2 = p.2
        · subst he2
          rw [getDset_self _ _ _ hplt, hgp]
          simp
        · rw [getDset_ne _ _ _ _ (fun hc => he2 hc.symm)]
          exact if_congr (by simp [he2]) rfl rfl
      · rw [ihd]
        congr 1
        rw [List.filter_cons, hgp]
        simp only [Ptr.isLive, Bool.false_eq_true, if_false]
        exact List.filter_congr fun q hq => by
          by_cases hq2 : q.2 = p.2
          · rw [hq2, getDset_self _ _ _ hplt, hgp]
          · rw [getDset_ne _ _ _ _ (fun hc => hq2 hc.symm)]
    | expunged =>
      have htE : tryExpungeH hp p.2 = (true, hp) := by
        unfold tryExpungeH
        rw [hgp]
      have hstep : expungeFold (hp, acc) (p :: rest) = expungeFold (hp, acc) rest := by
        rw [expungeFold, htE]
        rfl
      rw [hstep]
      obtain ⟨ihlen, ihget, ihd⟩ := ih hp acc (fun q hq => hids q (by simp [hq]))
      refine ⟨ihlen, ?_, ?_⟩
      · intro e2
        rw [ihget e2]
        by_cases he2 : e2 = p.2
        · subst he2
          rw [hgp]
          simp
        · exact if_congr (by simp [he2]) rfl rfl
      · rw [ihd]
        congr 1
        rw [List.filter_cons, hgp]
        simp [Ptr.isLive]
    | mk a =>
      have htE : tryExpungeH hp p.2 = (false, hp) := by
        unfold tryExpungeH
        rw [hgp]
      have hstep : expungeFold (hp, acc) (p :: rest) =
          expungeFold (hp, acc ++ [p]) rest := by
        rw [expungeFold, htE]
        rfl
      rw [hstep]
      obtain ⟨ihlen, ihget, ihd⟩ := ih hp (acc ++ [p]) (fun q hq => hids q (by simp [hq]))
      refine ⟨ihlen, ?_, ?_⟩
      · intro e2
        rw [ihget e2]
        by_cases he2 : e2 = p.2
        · subst he2
          rw [hgp]
          simp
        · exact if_congr (by simp [he2]) rfl rfl
      · rw [ihd]
        rw [List.filter_cons, hgp]
        simp [Ptr.isLive]

end SyncMapGeneric

namespace SyncMapGeneric

variable {K : Type} [DecidableEq K]

theorem dirtyLocked_spec (s : MState K) (hdd : s.dirty = none)
    (hids : ∀ p ∈ s.readm, p.2 < s.heap.length) :
    (dirtyLocked s).heap.length = s.heap.length ∧
    (∀ e2, getE (dirtyLocked s) e2 =
      if e2 ∈ s.readm.map Prod.snd ∧ getE s e2 = .null then .expunged else getE s e2) ∧
    (dirtyLocked s).dirty = some (s.readm.filter (fun p => (getE s p.2).isLive)) := by
  obtain ⟨hlen, hget, hd⟩ := expungeFold_spec s.readm s.heap [] hids
  have hred : dirtyLocked s =
      { s with heap := (expungeFold (s.heap, []) s.readm).1,
               dirty := some ((expungeFold (s.heap, []) s.readm).2) } := by
    unfold dirtyLocked
    rw [hdd]
  rw [hred]
  refine ⟨hlen, fun e2 => hget e2, ?_⟩
  show some ((expungeFold (s.heap, []) s.readm).2) = _
  rw [hd]
  simp only [List.nil_append]
  rfl

theorem mem_allB_readm (s : MState K) (p : K × Nat) (h : p ∈ s.readm) : p ∈ allB s := by
  simp [allB, h]

theorem mem_allB_dirty (s : MState K) (p : K × Nat) (h : p ∈ dirtyL s) : p ∈ allB s := by
  simp [allB, h]

theorem inv_promote (s : MState K) (hInv : Inv s) :
    Inv { s with readm := dirtyL s, amended := false, dirty := none, misses := 0 } := by
  obtain ⟨h1, h2, h3, h4, h5, h6, h7, h8, h9⟩ := hInv
  refine ⟨?_, ?_, ?_, ?_, ?_, ?_, ?_, ?_, ?_⟩
  · exact h2
  · simp [dirtyL]
  · intro p hp
    simp only [allB, dirtyL, Option.getD_none, List.append_nil] at hp
    exact h3 p (mem_allB_dirty s p hp)
  · simp
  · intro _
    exact Or.inl rfl
  · intro p hp hpe
    exact absurd hpe (h8 p hp)
  · simp [dirtyL]
  · simp [dirtyL]
  · intro p hp q hq
    simp only [allB, dirtyL, Option.getD_none, List.append_nil] at hp hq
    exact h9 p (mem_allB_dirty s p hp) q (mem_allB_dirty s q hq)

theorem inv_misses (s : MState K) (n : Nat) (hInv : Inv s) :
    Inv { s with misses := n } := hInv

theorem inv_missLocked (s : MState K) (hInv : Inv s) : Inv (missLocked s) := by
  unfold missLocked
  split
  · exact inv_misses s _ hInv
  · exact inv_promote s hInv

theorem inv_setE (s : MState K) (e : Nat) (v : Ptr) (hInv : Inv s)
    (he : getE s e ≠ .expunged) (hv : v ≠ .expunged) : Inv (setE s e v) := by
  obtain ⟨h1, h2, h3, h4, h5, h6, h7, h8, h9⟩ := hInv
  have hget : ∀ e2, getE (setE s e v) e2 = .expunged → getE s e2 = .expunged := by
    intro e2 hx
    by_cases hee : e = e2
    · rw [← hee] at hx
      by_cases hlt : e < s.heap.length
      · rw [getE_setE _ _ _ hlt] at hx
        exact absurd hx hv
      · rw [getE, setE] at hx
        rw [set_oor _ _ _ hlt] at hx
        rw [← hee]
        exact hx
    · rw [getE_setE_ne _ _ _ _ hee] at hx
      exact hx
  refine ⟨h1, h2, ?_, h4, h5, ?_, ?_, ?_, h9⟩
  · intro p hp
    simp only [setE, List.length_set]
    exact h3 p hp
  · intro p hp hpe
    exact h6 p hp (hget p.2 hpe)
  · intro hds p hp hpe
    refine h7 hds p hp ?_
    intro hc
    by_cases hee : e = p.2
    · rw [← hee] at hc
      exact he hc
    · rw [getE_setE_ne _ _ _ _ hee] at hpe
      exact hpe hc
  · intro p hp hc
    by_cases hee : e = p.2
    · by_cases hlt : e < s.heap.length
      · rw [← hee, getE_setE _ _ _ hlt] at hc
        exact hv hc
      · have hx : getE (setE s e v) p.2 = getE s p.2 := by
          show (s.heap.set e v).getD p.2 .null = s.heap.getD p.2 .null
          rw [set_oor _ _ _ hlt]
        rw [hx] at hc
        exact h8 p hp hc
    · rw [getE_setE_ne _ _ _ _ hee] at hc
      exact h8 p hp hc

end SyncMapGeneric

namespace SyncMapGeneric

variable {K : Type} [DecidableEq K]

theorem toPtr_ne_expunged (v : Option Nat) : toPtr v ≠ .expunged := by
  cases v <;> simp [toPtr]

theorem inv_entryDelete (s : MState K) (e : Nat) (hInv : Inv s) :
    Inv (entryDelete s e).2 := by
  unfold entryDelete
  cases hge : getE s e with
  | null => exact hInv
  | expunged => exact hInv
  | mk a => exact inv_setE s e .null hInv (by simp [hge]) (by simp)

theorem inv_cadLoop (s : MState K) (e : Nat) (old : Ptr) (hInv : Inv s) :
    Inv (cadLoop s e old).2 := by
  unfold cadLoop
  cases hge : getE s e with
  | null => exact hInv
  | expunged => exact hInv
  | mk a =>
    dsimp only
    split
    · exact inv_setE s e .null hInv (by simp [hge]) (by simp)
    · exact hInv

theorem inv_tryCAS (s : MState K) (e : Nat) (old nw : Ptr) (hInv : Inv s)
    (hnw : nw ≠ .expunged) : Inv (tryCompareAndSwap s e old nw).2 := by
  unfold tryCompareAndSwap
  cases hge : getE s e with
  | null => exact hInv
  | expunged => exact hInv
  | mk a =>
    dsimp only
    split
    · exact inv_setE s e nw hInv (by simp [hge]) hnw
    · exact hInv

theorem inv_tryLoadOrStore (s : MState K) (e : Nat) (v : Ptr) (hInv : Inv s)
    (hv : v ≠ .expunged) : Inv (tryLoadOrStore s e v).2 := by
  unfold tryLoadOrStore
  cases hge : getE s e with
  | null => exact inv_setE s e v hInv (by simp [hge]) hv
  | expunged => exact hInv
  | mk a => exact hInv

theorem inv_trySwap (s : MState K) (e : Nat) (v : Ptr) (hInv : Inv s)
    (hv : v ≠ .expunged) : Inv (trySwap s e v).2 := by
  unfold trySwap
  cases hge : getE s e with
  | null => exact inv_setE s e v hInv (by simp [hge]) hv
  | expunged => exact hInv
  | mk a => exact inv_setE s e v hInv (by simp [hge]) hv

theorem inv_derase (s : MState K) (k : K) (hInv : Inv s)
    (heq : alookup s.readm k = none) : Inv (derase s k) := by
  obtain ⟨h1, h2, h3, h4, h5, h6, h7, h8, h9⟩ := hInv
  have hkey : ∀ p ∈ s.readm, p.1 ≠ k := (alookup_eq_none _ _).1 heq
  cases hdd : s.dirty with
  | none =>
    have hde : derase s k = { s with dirty := none } := by
      unfold derase
      rw [hdd]
      rfl
    rw [hde, ← hdd]
    exact ⟨h1, h2, h3, h4, h5, h6, h7, h8, h9⟩
  | some d =>
    have hL : dirtyL s = d := by simp [dirtyL, hdd]
    have hL2 : dirtyL (derase s k) = aerase d k := by simp [dirtyL, derase, hdd]
    have hAB : allB (derase s k) = s.readm ++ aerase d k := by
      unfold allB
      rw [derase_readm, hL2]
    refine ⟨h1, ?_, ?_, ?_, ?_, ?_, ?_, ?_, ?_⟩
    · rw [hL2]
      exact aerase_keys_nodup d k (by rw [← hL]; exact h2)
    · intro p hp
      rw [hAB] at hp
      show p.2 < s.heap.length
      rcases List.mem_append.1 hp with hp1 | hp1
      · exact h3 p (mem_allB_readm s p hp1)
      · exact h3 p (mem_allB_dirty s p (by rw [hL]; exact mem_aerase d k p hp1))
    · intro ha
      simp [derase, hdd]
    · intro ha
      rcases h5 ha with hc | ⟨hc, hc2⟩
      · rw [hdd] at hc
        cases hc
      · rw [hdd] at hc
        cases hc
        exact Or.inr ⟨by simp [derase, hdd, aerase], hc2⟩
    · intro p hp hpe
      obtain ⟨hs, hn⟩ := h6 p hp hpe
      refine ⟨by simp [derase, hdd], ?_⟩
      rw [hL2]
      rw [hL] at hn
      rw [alookup_aerase_ne d k p.1 (hkey p hp)]
      exact hn
    · intro hds p hp hpe
      rw [hL2, alookup_aerase_ne d k p.1 (hkey p hp)]
      rw [← hL]
      exact h7 (by simp [hdd]) p hp hpe
    · intro p hp
      rw [hL2] at hp
      exact h8 p (by rw [hL]; exact mem_aerase d k p hp)
    · intro p hp q hq
      rw [hAB] at hp hq
      rcases List.mem_append.1 hp with hp1 | hp1 <;>
        rcases List.mem_append.1 hq with hq1 | hq1
      · exact h9 p (mem_allB_readm s p hp1) q (mem_allB_readm s q hq1)
      · exact h9 p (mem_allB_readm s p hp1) q
          (mem_allB_dirty s q (by rw [hL]; exact mem_aerase d k q hq1))
      · exact h9 p (mem_allB_dirty s p (by rw [hL]; exact mem_aerase d k p hp1)) q
          (mem_allB_readm s q hq1)
      · exact h9 p (mem_allB_dirty s p (by rw [hL]; exact mem_aerase d k p hp1)) q
          (mem_allB_dirty s q (by rw [hL]; exact mem_aerase d k q hq1))

end SyncMapGeneric

namespace SyncMapGeneric

variable {K : Type} [DecidableEq K]

theorem inv_unexpunge_register (s : MState K) (k : K) (e : Nat) (hInv : Inv s)
    (heq : alookup s.readm k = some e) (hge : getE s e = .expunged) :
    Inv (dinsert (setE s e .null) k e) := by
  obtain ⟨h1, h2, h3, h4, h5, h6, h7, h8, h9⟩ := hInv
  have hmem : (k, e) ∈ s.readm := alookup_mem _ _ _ heq
  obtain ⟨hds, hnone⟩ := h6 (k, e) hmem hge
  have hlt : e < s.heap.length := getE_lt_of_ne_null s e (by simp [hge])
  cases hdd : s.dirty with
  | none =>
    rw [hdd] at hds
    cases hds
  | some d =>
  have hL : dirtyL s = d := by simp [dirtyL, hdd]
  rw [hL] at hnone h2 h7 h8
  have hLt : dirtyL (dinsert (setE s e .null) k e) = ainsert d k e := by
    simp [dirtyL, dinsert, setE, hdd]
  have hABt : allB (dinsert (setE s e .null) k e) = s.readm ++ ainsert d k e := by
    unfold allB
    rw [dinsert_readm, setE_readm, hLt]
  have hget_self : getE (dinsert (setE s e .null) k e) e = .null := by
    rw [getE_dinsert]
    exact getE_setE _ _ _ hlt
  have hget_ne : ∀ e2, e ≠ e2 → getE (dinsert (setE s e .null) k e) e2 = getE s e2 := by
    intro e2 he2
    rw [getE_dinsert]
    exact getE_setE_ne _ _ _ _ he2
  have hkeyne : ∀ p ∈ s.readm, p.2 ≠ e → p.1 ≠ k := by
    intro p hp hpe hc
    have hx := mem_alookup s.readm p.1 p.2 h1 hp
    rw [hc, heq] at hx
    exact hpe (by injection hx with h0; exact h0.symm)
  have hsub : ∀ p ∈ allB (dinsert (setE s e .null) k e), p ∈ allB s := by
    intro p hp
    rw [hABt] at hp
    rcases List.mem_append.1 hp with hp1 | hp1
    · exact mem_allB_readm s p hp1
    · rcases mem_ainsert d k e p hp1 with hp2 | hp2
      · rw [hp2]
        exact mem_allB_readm s _ hmem
      · exact mem_allB_dirty s p (by rw [hL]; exact hp2)
  refine ⟨h1, ?_, ?_, ?_, ?_, ?_, ?_, ?_, ?_⟩
  · rw [hLt]
    exact ainsert_keys_nodup d k e h2
  · intro p hp
    show p.2 < (s.heap.set e .null).length
    rw [List.length_set]
    exact h3 p (hsub p hp)
  · intro _
    simp [dinsert, setE, hdd]
  · intro ha
    rcases h5 ha with hc | ⟨hc, hc2⟩
    · rw [hdd] at hc
      cases hc
    · rw [hdd] at hc
      cases hc
      rw [hc2] at hmem
      simp at hmem
  · intro p hp hpe
    refine ⟨by simp [dinsert, setE, hdd], ?_⟩
    by_cases hee : e = p.2
    · rw [← hee, hget_self] at hpe
      cases hpe
    · rw [hget_ne p.2 hee] at hpe
      obtain ⟨_, hn2⟩ := h6 p hp hpe
      rw [hL] at hn2
      rw [hLt, alookup_ainsert_ne d k p.1 e (hkeyne p hp (fun hc => hee hc.symm))]
      exact hn2
  · intro hds2 p hp hpe
    rw [hLt]
    by_cases hee : e = p.2
    · have hpk : p.1 = k :=
        h9 p (mem_allB_readm s p hp) (k, e) (mem_allB_readm s _ hmem) hee.symm
      rw [hpk, ← hee]
      exact alookup_ainsert_self d k e
    · rw [hget_ne p.2 hee] at hpe
      have hn := h7 hds p hp hpe
      rw [alookup_ainsert_ne d k p.1 e (hkeyne p hp (fun hc => hee hc.symm))]
      exact hn
  · intro p hp
    rw [hLt] at hp
    rcases mem_ainsert d k e p hp with hp2 | hp2
    · rw [hp2]
      show getE (dinsert (setE s e Ptr.null) k e) e ≠ Ptr.expunged
      rw [hget_self]
      simp
    · by_cases hee : e = p.2
      · rw [← hee, hget_self]
        simp
      · rw [hget_ne p.2 hee]
        exact h8 p hp2
  · intro p hp q hq
    exact h9 p (hsub p hp) q (hsub q hq)

end SyncMapGeneric

namespace SyncMapGeneric

variable {K : Type} [DecidableEq K]

theorem inv_amended_true (s : MState K) (hInv : Inv s) (hds : s.dirty.isSome = true) :
    Inv { s with amended := true } := by
  obtain ⟨h1, h2, h3, h4, h5, h6, h7, h8, h9⟩ := hInv
  exact ⟨h1, h2, h3, fun _ => hds, fun h => by simp at h, h6, h7, h8, h9⟩

theorem dirtyLocked_of_some (s : MState K) (d : List (K × Nat)) (hdd : s.dirty = some d) :
    dirtyLocked s = s := by
  unfold dirtyLocked
  rw [hdd]

theorem inv_append_insert (s : MState K) (k : K) (v : Ptr) (d : List (K × Nat)) (hInv : Inv s)
    (ha : s.amended = true) (hdd : s.dirty = some d)
    (heq : alookup s.readm k = none) (hdk : alookup d k = none) (hv : v ≠ .expunged) :
    Inv (dinsert { s with heap := s.heap ++ [v] } k s.heap.length) := by
  obtain ⟨h1, h2, h3, h4, h5, h6, h7, h8, h9⟩ := hInv
  have hL : dirtyL s = d := by simp [dirtyL, hdd]
  rw [hL] at h2 h7 h8
  have hkey : ∀ p ∈ s.readm, p.1 ≠ k := (alookup_eq_none _ _).1 heq
  have hkeyd : ∀ p ∈ d, p.1 ≠ k := (alookup_eq_none _ _).1 hdk
  have hids : ∀ p ∈ s.readm, p.2 < s.heap.length := fun p hp => h3 p (mem_allB_readm s p hp)
  have hidsd : ∀ p ∈ d, p.2 < s.heap.length := fun p hp =>
    h3 p (mem_allB_dirty s p (by rw [hL]; exact hp))
  have hLt : dirtyL (dinsert { s with heap := s.heap ++ [v] } k s.heap.length) =
      ainsert d k s.heap.length := by
    simp [dirtyL, dinsert, hdd]
  have hABt : allB (dinsert { s with heap := s.heap ++ [v] } k s.heap.length) =
      s.readm ++ ainsert d k s.heap.length := by
    unfold allB
    rw [dinsert_readm, hLt]
  have hgetold : ∀ e2, e2 < s.heap.length →
      getE (dinsert { s with heap := s.heap ++ [v] } k s.heap.length) e2 = getE s e2 := by
    intro e2 he2
    rw [getE_dinsert]
    show (s.heap ++ [v]).getD e2 .null = s.heap.getD e2 .null
    exact getD_append_left _ _ _ he2
  have hgetnew : getE (dinsert { s with heap := s.heap ++ [v] } k s.heap.length)
      s.heap.length = v := by
    rw [getE_dinsert]
    show (s.heap ++ [v]).getD s.heap.length .null = v
    exact getD_append_self _ _
  refine ⟨h1, ?_, ?_, ?_, ?_, ?_, ?_, ?_, ?_⟩
  · rw [hLt]
    exact ainsert_keys_nodup d k _ h2
  · intro p hp
    rw [hABt] at hp
    show p.2 < (s.heap ++ [v]).length
    rw [List.length_append]
    rcases List.mem_append.1 hp with hp1 | hp1
    · have := hids p hp1
      omega
    · rcases mem_ainsert d k _ p hp1 with hp2 | hp2
      · rw [hp2]
        simp
      · have := hidsd p hp2
        omega
  · intro _
    simp [dinsert, hdd]
  · intro hfalse
    rw [show (dinsert { s with heap := s.heap ++ [v] } k s.heap.length).amended = s.amended
      from rfl, ha] at hfalse
    cases hfalse
  · intro p hp hpe
    rw [hgetold p.2 (hids p hp)] at hpe
    obtain ⟨_, hn⟩ := h6 p hp hpe
    rw [hL] at hn
    refine ⟨by simp [dinsert, hdd], ?_⟩
    rw [hLt, alookup_ainsert_ne d k p.1 _ (hkey p hp)]
    exact hn
  · intro hds2 p hp hpe
    rw [hgetold p.2 (hids p hp)] at hpe
    have hn := h7 (by simp [hdd]) p hp hpe
    rw [hLt, alookup_ainsert_ne d k p.1 _ (hkey p hp)]
    exact hn
  · intro p hp
    rw [hLt] at hp
    rcases mem_ainsert d k _ p hp with hp2 | hp2
    · rw [hp2]
      show getE (dinsert { s with heap := s.heap ++ [v] } k s.heap.length) s.heap.length ≠
        Ptr.expunged
      rw [hgetnew]
      exact hv
    · rw [hgetold p.2 (hidsd p hp2)]
      exact h8 p hp2
  · intro p hp q hq
    rw [hABt] at hp hq
    have hmem : ∀ r : K × Nat, r ∈ s.readm ++ ainsert d k s.heap.length →
        r ∈ allB s ∨ r = (k, s.heap.length) := by
      intro r hr
      rcases List.mem_append.1 hr with hr1 | hr1
      · exact Or.inl (mem_allB_readm s r hr1)
      · rcases mem_ainsert d k _ r hr1 with hr2 | hr2
        · exact Or.inr hr2
        · exact Or.inl (mem_allB_dirty s r (by rw [hL]; exact hr2))
    have hlt : ∀ r : K × Nat, r ∈ allB s → r.2 < s.heap.length := h3
    rcases hmem p hp with hp1 | hp1 <;> rcases hmem q hq with hq1 | hq1
    · exact h9 p hp1 q hq1
    · intro hpq
      rw [hq1] at hpq
      have := hlt p hp1
      simp at hpq
      omega
    · intro hpq
      rw [hp1] at hpq
      have := hlt q hq1
      simp at hpq
      omega
    · intro _
      rw [hp1, hq1]

end SyncMapGeneric

namespace SyncMapGeneric

variable {K : Type} [DecidableEq K]

theorem inv_dirtyLocked_amended (s : MState K) (hInv : Inv s) (hdd : s.dirty = none) :
    Inv { dirtyLocked s with amended := true } := by
  obtain ⟨h1, h2, h3, h4, h5, h6, h7, h8, h9⟩ := hInv
  have hids : ∀ p ∈ s.readm, p.2 < s.heap.length := fun p hp => h3 p (mem_allB_readm s p hp)
  obtain ⟨hlen, hget, hD⟩ := dirtyLocked_spec s hdd hids
  have hrm : (dirtyLocked s).readm = s.readm := dirtyLocked_readm s
  have hgetT : ∀ e2, getE { dirtyLocked s with amended := true } e2 = getE (dirtyLocked s) e2 :=
    fun e2 => rfl
  have hLt : dirtyL { dirtyLocked s with amended := true } =
      s.readm.filter (fun p => (getE s p.2).isLive) := by
    simp [dirtyL, hD]
  have hABt : allB { dirtyLocked s with amended := true } =
      s.readm ++ s.readm.filter (fun p => (getE s p.2).isLive) := by
    unfold allB
    rw [show ({ dirtyLocked s with amended := true } : MState K).readm =
      (dirtyLocked s).readm from rfl, hrm, hLt]
  refine ⟨?_, ?_, ?_, ?_, ?_, ?_, ?_, ?_, ?_⟩
  · rw [show ({ dirtyLocked s with amended := true } : MState K).readm =
      (dirtyLocked s).readm from rfl, hrm]
    exact h1
  · rw [hLt]
    exact ((List.filter_sublist _).map Prod.fst).nodup h1
  · intro p hp
    rw [hABt] at hp
    show p.2 < (dirtyLocked s).heap.length
    rw [hlen]
    rcases List.mem_append.1 hp with hp1 | hp1
    · exact hids p hp1
    · exact hids p (List.mem_of_mem_filter hp1)
  · intro _
    simp [hD]
  · intro hfalse
    simp at hfalse
  · intro p hp hpe
    rw [show ({ dirtyLocked s with amended := true } : MState K).readm =
      (dirtyLocked s).readm from rfl, hrm] at hp
    rw [hgetT, hget p.2] at hpe
    refine ⟨by simp [hD], ?_⟩
    rw [hLt]
    by_cases hcond : p.2 ∈ s.readm.map Prod.snd ∧ getE s p.2 = .null
    · exact alookup_filter_none _ _ p h1 hp (by simp [hcond.2, Ptr.isLive])
    · rw [if_neg hcond] at hpe
      exact alookup_filter_none _ _ p h1 hp (by simp [hpe, Ptr.isLive])
  · intro hds2 p hp hpe
    rw [show ({ dirtyLocked s with amended := true } : MState K).readm =
      (dirtyLocked s).readm from rfl, hrm] at hp
    rw [hgetT, hget p.2] at hpe
    rw [hLt]
    by_cases hcond : p.2 ∈ s.readm.map Prod.snd ∧ getE s p.2 = .null
    · rw [if_pos hcond] at hpe
      exact absurd rfl hpe
    · rw [if_neg hcond] at hpe
      cases hgv : getE s p.2 with
      | null =>
        exact absurd ⟨List.mem_map_of_mem Prod.snd hp, hgv⟩ hcond
      | expunged => exact absurd hgv hpe
      | mk a =>
        exact alookup_filter_some _ _ p h1 hp (by simp [hgv, Ptr.isLive])
  · intro p hp
    rw [hLt] at hp
    have hp1 : p ∈ s.readm := List.mem_of_mem_filter hp
    have hp2 : (getE s p.2).isLive = true := (List.mem_filter.1 hp).2
    rw [hgetT, hget p.2]
    have hnn : getE s p.2 ≠ .null := by
      intro hc
      rw [hc] at hp2
      simp [Ptr.isLive] at hp2
    rw [if_neg (by intro hc; exact hnn hc.2)]
    intro hc
    rw [hc] at hp2
    simp [Ptr.isLive] at hp2
  · intro p hp q hq
    rw [hABt] at hp hq
    have hmem : ∀ r : K × Nat, r ∈ s.readm ++ s.readm.filter (fun p => (getE s p.2).isLive) →
        r ∈ allB s := by
      intro r hr
      rcases List.mem_append.1 hr with hr1 | hr1
      · exact mem_allB_readm s r hr1
      · exact mem_allB_readm s r (List.mem_of_mem_filter hr1)
    exact h9 p (hmem p hp) q (hmem q hq)

end SyncMapGeneric

namespace SyncMapGeneric

variable {K : Type} [DecidableEq K]

theorem dirty_of_dlookup_some (s : MState K) (k : K) (e : Nat) (hd : dlookup s k = some e) :
    ∃ d, s.dirty = some d ∧ alookup d k = some e := by
  cases hdd : s.dirty with
  | none => rw [dlookup, hdd] at hd; cases hd
  | some d =>
    refine ⟨d, rfl, ?_⟩
    rw [dlookup, hdd] at hd
    exact hd

theorem getE_dirty_ne_expunged (s : MState K) (k : K) (e : Nat) (hInv : Inv s)
    (hd : dlookup s k = some e) : getE s e ≠ .expunged := by
  obtain ⟨h1, h2, h3, h4, h5, h6, h7, h8, h9⟩ := hInv
  obtain ⟨d, hdd, hal⟩ := dirty_of_dlookup_some s k e hd
  exact h8 (k, e) (by rw [dirtyL, hdd]; exact alookup_mem d k e hal)

theorem inv_newkey_branch (s : MState K) (k : K) (v : Ptr) (hInv : Inv s)
    (heq : alookup s.readm k = none) (hd : dlookup s k = none) (hv : v ≠ .expunged) :
    Inv
      (dinsert
        { (if s.amended = true then s else { dirtyLocked s with amended := true }) with
          heap := (if s.amended = true then s
            else { dirtyLocked s with amended := true }).heap ++ [v] }
        k (if s.amended = true then s
            else { dirtyLocked s with amended := true }).heap.length) := by
  by_cases ha : s.amended = true
  · rw [if_pos ha]
    obtain ⟨h1, h2, h3, h4, h5, h6, h7, h8, h9⟩ := hInv
    have hds := h4 ha
    cases hdd : s.dirty with
    | none => rw [hdd] at hds; cases hds
    | some d =>
      have hdk : alookup d k = none := by rw [dlookup, hdd] at hd; exact hd
      exact inv_append_insert s k v d ⟨h1, h2, h3, h4, h5, h6, h7, h8, h9⟩ ha hdd heq hdk hv
  · rw [if_neg ha]
    have ha2 : s.amended = false := by
      cases hx : s.amended
      · rfl
      · exact absurd hx ha
    cases hdd : s.dirty with
    | some d =>
      have hone : dirtyLocked s = s := dirtyLocked_of_some s d hdd
      rw [hone]
      obtain ⟨h1, h2, h3, h4, h5, h6, h7, h8, h9⟩ := hInv
      rcases h5 ha2 with hc | ⟨hc, hc2⟩
      · rw [hdd] at hc
        cases hc
      · rw [hdd] at hc
        injection hc with hc
        have hInv2 : Inv { s with amended := true } :=
          inv_amended_true s ⟨h1, h2, h3, h4, h5, h6, h7, h8, h9⟩ (by simp [hdd])
      -- the inserted state is over s1 := { s with amended := true }
        have := inv_append_insert { s with amended := true } k v d hInv2 rfl
          (by simp [hdd]) heq (by rw [hc]; simp [alookup]) hv
        exact this
    | none =>
      have hInv2 := inv_dirtyLocked_amended s hInv hdd
      obtain ⟨h1, h2, h3, h4, h5, h6, h7, h8, h9⟩ := hInv
      have hids : ∀ p ∈ s.readm, p.2 < s.heap.length := fun p hp =>
        h3 p (mem_allB_readm s p hp)
      obtain ⟨hlen, hget, hD⟩ := dirtyLocked_spec s hdd hids
      have hkey : ∀ p ∈ s.readm, p.1 ≠ k := (alookup_eq_none _ _).1 heq
      have hdk : alookup (s.readm.filter (fun p => (getE s p.2).isLive)) k = none :=
        (alookup_eq_none _ _).2 fun p hp => hkey p (List.mem_of_mem_filter hp)
      have heq2 : alookup ({ dirtyLocked s with amended := true } : MState K).readm k = none := by
        rw [show ({ dirtyLocked s with amended := true } : MState K).readm =
          (dirtyLocked s).readm from rfl, dirtyLocked_readm]
        exact heq
      exact inv_append_insert { dirtyLocked s with amended := true } k v
        (s.readm.filter (fun p => (getE s p.2).isLive)) hInv2 rfl (by simp [hD]) heq2 hdk hv

theorem inv_swapSlow (s : MState K) (k : K) (v : Ptr) (hInv : Inv s) (hv : v ≠ .expunged) :
    Inv (swapSlow s k v).2 := by
  cases heq : alookup s.readm k with
  | some e =>
    cases hge : getE s e with
    | expunged =>
      have hu : unexpungeLocked s e = (true, setE s e .null) := by
        simp [unexpungeLocked, hge]
      have hlt : e < s.heap.length := getE_lt_of_ne_null s e (by simp [hge])
      have hs1 : Inv (dinsert (setE s e .null) k e) := inv_unexpunge_register s k e hInv heq hge
      have hge1 : getE (dinsert (setE s e .null) k e) e = .null := by
        rw [getE_dinsert]
        exact getE_setE _ _ _ hlt
      simp only [swapSlow, heq, hu, if_true, reduceIte]
      split <;> exact inv_setE _ e v hs1 (by rw [hge1]; simp) hv
    | null =>
      have hu : unexpungeLocked s e = (false, s) := by
        simp [unexpungeLocked, hge]
      simp only [swapSlow, heq, hu, Bool.false_eq_true, if_false, reduceIte]
      split <;> exact inv_setE s e v hInv (by rw [hge]; simp) hv
    | mk a =>
      have hu : unexpungeLocked s e = (false, s) := by
        simp [unexpungeLocked, hge]
      simp only [swapSlow, heq, hu, Bool.false_eq_true, if_false, reduceIte]
      split <;> exact inv_setE s e v hInv (by rw [hge]; simp) hv
  | none =>
    cases hd : dlookup s k with
    | some e =>
      have hne := getE_dirty_ne_expunged s k e hInv hd
      simp only [swapSlow, heq, hd]
      split <;> exact inv_setE s e v hInv hne hv
    | none =>
      simp only [swapSlow, heq, hd]
      exact inv_newkey_branch s k v hInv heq hd hv

theorem inv_Swap (s : MState K) (k : K) (v : Ptr) (hInv : Inv s) (hv : v ≠ .expunged) :
    Inv (Swap s k v).2 := by
  cases heq : alookup s.readm k with
  | some e =>
    cases hge : getE s e with
    | expunged =>
      have hts : trySwap s e v = (none, s) := by simp [trySwap, hge]
      simp only [Swap, heq, hts]
      exact inv_swapSlow s k v hInv hv
    | null =>
      have hts : trySwap s e v = (some .null, setE s e v) := by simp [trySwap, hge]
      simp only [Swap, heq, hts, if_true, reduceIte]
      exact inv_setE s e v hInv (by rw [hge]; simp) hv
    | mk a =>
      have hts : trySwap s e v = (some (.mk a), setE s e v) := by simp [trySwap, hge]
      simp only [Swap, heq, hts]
      split <;> exact inv_setE s e v hInv (by rw [hge]; simp) hv
  | none =>
    simp only [Swap, heq]
    exact inv_swapSlow s k v hInv hv

theorem inv_loadOrStoreSlow (s : MState K) (k : K) (v : Ptr) (hInv : Inv s)
    (hv : v ≠ .expunged) : Inv (loadOrStoreSlow s k v).2 := by
  cases heq : alookup s.readm k with
  | some e =>
    cases hge : getE s e with
    | expunged =>
      have hu : unexpungeLocked s e = (true, setE s e .null) := by
        simp [unexpungeLocked, hge]
      have hs1 : Inv (dinsert (setE s e .null) k e) := inv_unexpunge_register s k e hInv heq hge
      simp only [loadOrStoreSlow, heq, hu, if_true, reduceIte]
      exact inv_tryLoadOrStore _ e v hs1 hv
    | null =>
      have hu : unexpungeLocked s e = (false, s) := by
        simp [unexpungeLocked, hge]
      simp only [loadOrStoreSlow, heq, hu, Bool.false_eq_true, if_false, reduceIte]
      exact inv_tryLoadOrStore s e v hInv hv
    | mk a =>
      have hu : unexpungeLocked s e = (false, s) := by
        simp [unexpungeLocked, hge]
      simp only [loadOrStoreSlow, heq, hu, Bool.false_eq_true, if_false, reduceIte]
      exact inv_tryLoadOrStore s e v hInv hv
  | none =>
    cases hd : dlookup s k with
    | some e =>
      simp only [loadOrStoreSlow, heq, hd]
      exact inv_missLocked _ (inv_tryLoadOrStore s e v hInv hv)
    | none =>
      simp only [loadOrStoreSlow, heq, hd]
      exact inv_newkey_branch s k v hInv heq hd hv

theorem inv_LoadOrStore (s : MState K) (k : K) (v : Ptr) (hInv : Inv s)
    (hv : v ≠ .expunged) : Inv (LoadOrStore s k v).2 := by
  cases heq : alookup s.readm k with
  | some e =>
    simp only [LoadOrStore, heq]
    split
    · exact inv_tryLoadOrStore s e v hInv hv
    · exact inv_loadOrStoreSlow s k v hInv hv
  | none =>
    simp only [LoadOrStore, heq]
    exact inv_loadOrStoreSlow s k v hInv hv

end SyncMapGeneric

namespace SyncMapGeneric

variable {K : Type} [DecidableEq K]

theorem inv_Load (s : MState K) (k : K) (hInv : Inv s) : Inv (Load s k).2 := by
  cases heq : alookup s.readm k with
  | some e => simp only [Load, heq]; exact hInv
  | none =>
    by_cases ha : s.amended = true
    · cases hd : dlookup s k with
      | some e =>
        simp only [Load, heq, ha, if_true, reduceIte, hd]
        exact inv_missLocked s hInv
      | none =>
        simp only [Load, heq, ha, if_true, reduceIte, hd]
        exact inv_missLocked s hInv
    · simp only [Load, heq, ha, Bool.false_eq_true, if_false, reduceIte]
      exact hInv

theorem inv_LoadAndDelete (s : MState K) (k : K) (hInv : Inv s) :
    Inv (LoadAndDelete s k).2 := by
  cases heq : alookup s.readm k with
  | some e =>
    simp only [LoadAndDelete, heq]
    exact inv_entryDelete s e hInv
  | none =>
    by_cases ha : s.amended = true
    · have hInv1 : Inv (missLocked (derase s k)) :=
        inv_missLocked _ (inv_derase s k hInv heq)
      cases hd : dlookup s k with
      | some e =>
        simp only [LoadAndDelete, heq, ha, if_true, reduceIte, hd]
        exact inv_entryDelete _ e hInv1
      | none =>
        simp only [LoadAndDelete, heq, ha, if_true, reduceIte, hd]
        exact hInv1
    · simp only [LoadAndDelete, heq, ha, Bool.false_eq_true, if_false, reduceIte]
      exact hInv

theorem inv_CompareAndSwap (s : MState K) (k : K) (old nw : Ptr) (hInv : Inv s)
    (hnw : nw ≠ .expunged) : Inv (CompareAndSwap s k old nw).2 := by
  cases heq : alookup s.readm k with
  | some e =>
    simp only [CompareAndSwap, heq]
    exact inv_tryCAS s e old nw hInv hnw
  | none =>
    by_cases ha : s.amended = true
    · cases hd : dlookup s k with
      | some e =>
        simp only [CompareAndSwap, heq, ha, if_true, reduceIte, hd]
        exact inv_missLocked _ (inv_tryCAS s e old nw hInv hnw)
      | none =>
        simp only [CompareAndSwap, heq, ha, if_true, reduceIte, hd]
        exact hInv
    · simp only [CompareAndSwap, heq, ha, Bool.false_eq_true, if_false, reduceIte]
      exact hInv

theorem inv_CompareAndDelete (s : MState K) (k : K) (old : Ptr) (hInv : Inv s) :
    Inv (CompareAndDelete s k old).2 := by
  cases heq : alookup s.readm k with
  | some e =>
    simp only [CompareAndDelete, heq]
    exact inv_cadLoop s e old hInv
  | none =>
    by_cases ha : s.amended = true
    · cases hd : dlookup s k with
      | some e =>
        simp only [CompareAndDelete, heq, ha, if_true, reduceIte, hd]
        exact inv_cadLoop _ e old (inv_missLocked s hInv)
      | none =>
        simp only [CompareAndDelete, heq, ha, if_true, reduceIte, hd]
        exact inv_missLocked s hInv
    · simp only [CompareAndDelete, heq, ha, Bool.false_eq_true, if_false, reduceIte]
      exact hInv

theorem inv_Clear (s : MState K) (hInv : Inv s) : Inv (Clear s) := by
  unfold Clear
  split
  · exact hInv
  · cases hdd : s.dirty with
    | none =>
      refine ⟨by simp, ?_, ?_, ?_, ?_, ?_, ?_, ?_, ?_⟩ <;>
        simp [dirtyL, allB, hdd]
    | some d =>
      refine ⟨by simp, ?_, ?_, ?_, ?_, ?_, ?_, ?_, ?_⟩ <;>
        simp [dirtyL, allB, hdd, aerase]

theorem inv_rangePromote (s : MState K) (hInv : Inv s) : Inv (rangePromote s) := by
  unfold rangePromote
  split
  · exact inv_promote s hInv
  · exact hInv

theorem inv_step (s : MState K) (op : Op K) (hInv : Inv s) : Inv (step s op).2 := by
  cases op with
  | loadOp k => exact inv_Load s k hInv
  | storeOp k v => exact inv_Swap s k (toPtr v) hInv (toPtr_ne_expunged v)
  | loadOrStoreOp k v => exact inv_LoadOrStore s k (toPtr v) hInv (toPtr_ne_expunged v)
  | loadAndDeleteOp k => exact inv_LoadAndDelete s k hInv
  | deleteOp k => exact inv_LoadAndDelete s k hInv
  | swapOp k v => exact inv_Swap s k (toPtr v) hInv (toPtr_ne_expunged v)
  | casOp k o n => exact inv_CompareAndSwap s k (toPtr o) (toPtr n) hInv (toPtr_ne_expunged n)
  | cadOp k o => exact inv_CompareAndDelete s k (toPtr o) hInv
  | rangeOp f => exact inv_rangePromote s hInv
  | clearOp => exact inv_Clear s hInv

theorem inv_initState : Inv (initState K) := by
  refine ⟨?_, ?_, ?_, ?_, ?_, ?_, ?_, ?_, ?_⟩ <;>
    simp [initState, dirtyL, allB]

theorem inv_runOps (s : MState K) (ops : List (Op K)) (hInv : Inv s) :
    Inv (runOps s ops).2 := by
  induction ops generalizing s with
  | nil => exact hInv
  | cons op rest ih =>
    simp only [runOps]
    exact ih _ (inv_step s op hInv)

end SyncMapGeneric

namespace SyncMapGeneric

variable {K : Type} [DecidableEq K]

/-- C7 prototype. -/
theorem c7 :
    (∀ ops : List (Op K),
      ∀ p ∈ (runOps (initState K) ops).2.readm,
        getE (runOps (initState K) ops).2 p.2 = .expunged →
          (runOps (initState K) ops).2.dirty.isSome = true ∧
          alookup (dirtyL (runOps (initState K) ops).2) p.1 = none) ∧
    (∀ s : MState K, Inv s → s.dirty = none →
      (dirtyLocked s).dirty = some (s.readm.filter (fun p => (getE s p.2).isLive)) ∧
      (∀ e2, getE (dirtyLocked s) e2 =
        if e2 ∈ s.readm.map Prod.snd ∧ getE s e2 = .null then .expunged
        else getE s e2)) ∧
    (∀ (s : MState K) (k : K) (e : Nat) (v : Ptr), Inv s → v ≠ .expunged →
      alookup s.readm k = some e → getE s e = .expunged →
      dlookup (Swap s k v).2 k = some e) := by
  refine ⟨?_, ?_, ?_⟩
  · intro ops p hp hpe
    obtain ⟨h1, h2, h3, h4, h5, h6, h7, h8, h9⟩ :=
      inv_runOps (initState K) ops inv_initState
    exact h6 p hp hpe
  · intro s hInv hdd
    obtain ⟨h1, h2, h3, h4, h5, h6, h7, h8, h9⟩ := hInv
    have hids : ∀ p ∈ s.readm, p.2 < s.heap.length := fun p hp =>
      h3 p (mem_allB_readm s p hp)
    obtain ⟨hlen, hget, hD⟩ := dirtyLocked_spec s hdd hids
    exact ⟨hD, hget⟩
  · intro s k e v hInv hv heq hge
    obtain ⟨h1, h2, h3, h4, h5, h6, h7, h8, h9⟩ := hInv
    obtain ⟨hds, _⟩ := h6 (k, e) (alookup_mem _ _ _ heq) hge
    have hts : trySwap s e v = (none, s) := by simp [trySwap, hge]
    have hu : unexpungeLocked s e = (true, setE s e .null) := by
      simp [unexpungeLocked, hge]
    simp only [Swap, heq, hts, swapSlow, hu, if_true, reduceIte]
    have hds2 : (setE s e Ptr.null).dirty.isSome = true := hds
    have hgoal : dlookup (dinsert (setE s e Ptr.null) k e) k = some e :=
      dlookup_dinsert_self _ k e hds2
    split <;> exact hgoal

/-- Witness for c7. -/
theorem c7_witness :
    ((runOps (initState Nat)
        [Op.storeOp 1 (some 10), Op.loadOp 9, Op.loadOp 9, Op.deleteOp 1, Op.storeOp 2 (some 20)]).2.dirty.isSome
          = true ∧
      alookup (dirtyL (runOps (initState Nat)
        [Op.storeOp 1 (some 10), Op.loadOp 9, Op.loadOp 9, Op.deleteOp 1, Op.storeOp 2 (some 20)]).2) 1 = none) ∧
    ((dirtyLocked exampleAbsent).dirty =
        some (exampleAbsent.readm.filter (fun p => (getE exampleAbsent p.2).isLive)) ∧
      (∀ e2, getE (dirtyLocked exampleAbsent) e2 =
        if e2 ∈ exampleAbsent.readm.map Prod.snd ∧ getE exampleAbsent e2 = .null
        then .expunged else getE exampleAbsent e2)) ∧
    dlookup (Swap exampleExpunged 1 (.mk 9)).2 1 = some 0 := by
  refine ⟨?_, ?_, ?_⟩
  · exact c7.1 [Op.storeOp 1 (some 10), Op.loadOp 9, Op.loadOp 9, Op.deleteOp 1, Op.storeOp 2 (some 20)]
      (1, 0) (by decide) (by decide)
  · exact c7.2.1 exampleAbsent (by unfold Inv allB dirtyL; decide) (by decide)
  · exact c7.2.2 exampleExpunged 1 0 (.mk 9) (by unfold Inv allB dirtyL; decide) (by decide) (by decide) (by decide)

end SyncMapGeneric

namespace SyncMapGeneric

variable {K : Type} [DecidableEq K]

theorem heapLen_dinsert_setE (s : MState K) (k : K) (e e2 : Nat) (p : Ptr) :
    (dinsert (setE s e2 p) k e).heap.length = s.heap.length := by
  show (s.heap.set e2 p).length = s.heap.length
  exact List.length_set s.heap e2 p

/-- Helper: the observable load of a freshly inserted dirty-map key. -/
theorem loadRes_newkey (t : MState K) (k : K) (v : Ptr) (hv : v ≠ .expunged)
    (heq : alookup t.readm k = none) (ha : t.amended = true) (hds : t.dirty.isSome = true) :
    loadRes (dinsert { t with heap := t.heap ++ [v] } k t.heap.length) k = (v, v.isLive) := by
  have hl : dlookup (dinsert { t with heap := t.heap ++ [v] } k t.heap.length) k
      = some t.heap.length := dlookup_dinsert_self _ _ _ hds
  have hg : getE (dinsert { t with heap := t.heap ++ [v] } k t.heap.length) t.heap.length
      = v := by
    rw [getE_dinsert]
    show (t.heap ++ [v]).getD t.heap.length .null = v
    exact getD_append_self _ _
  rw [ha] at hl hg
  simp [loadRes, visibleEntry, heq, ha, hl, hg, entryLoad_shape _ hv]

/-- Helper: after storing a live handle the observable load of that key
is that handle, under the invariant. -/
theorem store_live_load (s : MState K) (k : K) (n : Nat) (hInv : Inv s) :
    loadRes (Store s k (.mk n)) k = (.mk n, true) := by
  obtain ⟨h1, h2, h3, h4, h5, h6, h7, h8, h9⟩ := hInv
  unfold Store
  cases heq : alookup s.readm k with
  | some e =>
    have hlt : e < s.heap.length := h3 (k, e) (mem_allB_readm s _ (alookup_mem _ _ _ heq))
    cases hge : getE s e with
    | expunged =>
      have hts : trySwap s e (.mk n) = (none, s) := by simp [trySwap, hge]
      have hu : unexpungeLocked s e = (true, setE s e .null) := by
        simp [unexpungeLocked, hge]
      simp only [Swap, heq, hts, swapSlow, hu, if_true, reduceIte]
      have hlt2 : e < (dinsert (setE s e Ptr.null) k e).heap.length := by
        rw [heapLen_dinsert_setE]
        exact hlt
      split <;>
      · show loadRes (setE _ e (.mk n)) k = _
        simp [loadRes, visibleEntry, heq, getE_setE _ _ _ hlt2, entryLoad]
    | null =>
      have hts : trySwap s e (.mk n) = (some .null, setE s e (.mk n)) := by
        simp [trySwap, hge]
      simp only [Swap, heq, hts, if_true, reduceIte]
      simp [loadRes, visibleEntry, heq, getE_setE _ _ _ hlt, entryLoad]
    | mk a =>
      have hts : trySwap s e (.mk n) = (some (.mk a), setE s e (.mk n)) := by
        simp [trySwap, hge]
      simp only [Swap, heq, hts]
      split <;> simp [loadRes, visibleEntry, heq, getE_setE _ _ _ hlt, entryLoad]
  | none =>
    cases hd : dlookup s k with
    | some e =>
      obtain ⟨d, hdd, hal⟩ := dirty_of_dlookup_some s k e hd
      have hlt : e < s.heap.length :=
        h3 (k, e) (mem_allB_dirty s _ (by rw [dirtyL, hdd]; exact alookup_mem d k e hal))
      have ha : s.amended = true := by
        cases hx : s.amended
        · rcases h5 hx with hc | ⟨hc, hc2⟩
          · rw [hdd] at hc
            cases hc
          · rw [hdd] at hc
            injection hc with hc
            rw [hc] at hal
            cases hal
        · rfl
      simp only [Swap, heq, swapSlow, hd]
      split <;>
      · show loadRes (setE s e (.mk n)) k = _
        simp [loadRes, visibleEntry, heq, ha, dlookup_setE, hd, getE_setE _ _ _ hlt,
          entryLoad]
    | none =>
      simp only [Swap, heq, swapSlow, hd]
      by_cases ha : s.amended = true
      · rw [if_pos ha]
        exact loadRes_newkey s k (.mk n) (by simp) heq ha (h4 ha)
      · rw [if_neg ha]
        cases hdd : s.dirty with
        | some d =>
          rw [dirtyLocked_of_some s d hdd]
          exact loadRes_newkey { s with amended := true } k (.mk n) (by simp) heq rfl
            (by simp [hdd])
        | none =>
          have hids : ∀ p ∈ s.readm, p.2 < s.heap.length := fun p hp =>
            h3 p (mem_allB_readm s p hp)
          obtain ⟨hlen, hget, hD⟩ := dirtyLocked_spec s hdd hids
          refine loadRes_newkey { dirtyLocked s with amended := true } k (.mk n) (by simp)
            ?_ rfl (by simp [hD])
          rw [show ({ dirtyLocked s with amended := true } : MState K).readm =
            (dirtyLocked s).readm from rfl, dirtyLocked_readm]
          exact heq

/-- C3 prototype. -/
theorem c3 (s : MState K) (k : K) (n : Nat) (hInv : Inv s) :
    (Load (Store (Delete s k) k (.mk n)) k).1 = (.mk n, true) ∧
    (Load (Store s k (.mk n)) k).1 = (.mk n, true) ∧
    (∀ e, alookup s.readm k = some e → getE s e = .expunged →
      dlookup (Store s k (.mk n)) k = some e) := by
  refine ⟨?_, ?_, ?_⟩
  · rw [load_fst]
    exact store_live_load (Delete s k) k n (inv_LoadAndDelete s k hInv)
  · rw [load_fst]
    exact store_live_load s k n hInv
  · intro e heq hge
    obtain ⟨h1, h2, h3, h4, h5, h6, h7, h8, h9⟩ := hInv
    obtain ⟨hds, _⟩ := h6 (k, e) (alookup_mem _ _ _ heq) hge
    have hts : trySwap s e (.mk n) = (none, s) := by simp [trySwap, hge]
    have hu : unexpungeLocked s e = (true, setE s e .null) := by
      simp [unexpungeLocked, hge]
    unfold Store
    simp only [Swap, heq, hts, swapSlow, hu, if_true, reduceIte]
    have hgoal : dlookup (dinsert (setE s e Ptr.null) k e) k = some e :=
      dlookup_dinsert_self _ k e hds
    split <;> exact hgoal

end SyncMapGeneric

namespace SyncMapGeneric

/-- Witness for c3 at a state whose key-1 cell is expunged. -/
theorem c3_witness :
    (Load (Store (Delete exampleExpunged 1) 1 (.mk 9)) 1).1 = (.mk 9, true) ∧
    (Load (Store exampleExpunged 1 (.mk 9)) 1).1 = (.mk 9, true) ∧
    (∀ e, alookup exampleExpunged.readm 1 = some e → getE exampleExpunged e = .expunged →
      dlookup (Store exampleExpunged 1 (.mk 9)) 1 = some e) :=
  c3 exampleExpunged 1 9 (by unfold Inv allB dirtyL; decide)

end SyncMapGeneric

namespace SyncMapGeneric

variable {K : Type} [DecidableEq K]

/-- Helper: the promotion performed by `missLocked` does not change any
observable load result, under the invariant. -/
theorem loadRes_missLocked_all (s : MState K) (hInv : Inv s) (ha : s.amended = true)
    (k2 : K) : loadRes (missLocked s) k2 = loadRes s k2 := by
  obtain ⟨h1, h2, h3, h4, h5, h6, h7, h8, h9⟩ := hInv
  unfold missLocked
  by_cases hm : s.misses + 1 < (dirtyL s).length
  · rw [if_pos hm]
    rfl
  · rw [if_neg hm]
    have hds := h4 ha
    cases hda : alookup (dirtyL s) k2 with
    | some e =>
      have hres : loadRes ({ s with readm := dirtyL s, amended := false, dirty := none, misses := 0 } : MState K) k2 = entryLoad (getE s e) := by
        simp [loadRes, visibleEntry, hda, getE]
      rw [hres]
      cases heq : alookup s.readm k2 with
      | some e2 =>
        cases hge : getE s e2 with
        | expunged =>
          obtain ⟨_, hn⟩ := h6 (k2, e2) (alookup_mem _ _ _ heq) hge
          rw [hn] at hda
          cases hda
        | null =>
          have hn := h7 hds (k2, e2) (alookup_mem _ _ _ heq) (by simp [hge])
          rw [hn] at hda
          injection hda with hda2
          simp [loadRes, visibleEntry, heq, hge, ← hda2]
        | mk a =>
          have hn := h7 hds (k2, e2) (alookup_mem _ _ _ heq) (by simp [hge])
          rw [hn] at hda
          injection hda with hda2
          simp [loadRes, visibleEntry, heq, hge, ← hda2]
      | none =>
        have hdl : dlookup s k2 = some e := by rw [dlookup_dirtyL]; exact hda
        simp [loadRes, visibleEntry, heq, ha, hdl]
    | none =>
      have hres : loadRes ({ s with readm := dirtyL s, amended := false, dirty := none, misses := 0 } : MState K) k2 = (.null, false) := by
        simp [loadRes, visibleEntry, hda]
      rw [hres]
      cases heq : alookup s.readm k2 with
      | some e2 =>
        cases hge : getE s e2 with
        | expunged => simp [loadRes, visibleEntry, heq, hge, entryLoad]
        | null =>
          have hn := h7 hds (k2, e2) (alookup_mem _ _ _ heq) (by simp [hge])
          rw [hn] at hda
          cases hda
        | mk a =>
          have hn := h7 hds (k2, e2) (alookup_mem _ _ _ heq) (by simp [hge])
          rw [hn] at hda
          cases hda
      | none =>
        have hdl : dlookup s k2 = none := by rw [dlookup_dirtyL]; exact hda
        simp [loadRes, visibleEntry, heq, ha, hdl]

/-- C8 prototype. -/
theorem c8 (s : MState K) (k : K) (old : Ptr) (hInv : Inv s) :
    (∀ nw, (CompareAndSwap s k old nw).1 = false →
      ∀ k2, (Load (CompareAndSwap s k old nw).2 k2).1 = (Load s k2).1) ∧
    ((CompareAndDelete s k old).1 = false →
      ∀ k2, (Load (CompareAndDelete s k old).2 k2).1 = (Load s k2).1) := by
  constructor
  · intro nw hfail k2
    rw [load_fst, load_fst]
    cases heq : alookup s.readm k with
    | some e =>
      simp only [CompareAndSwap, heq] at hfail ⊢
      unfold tryCompareAndSwap at hfail ⊢
      cases hge : getE s e with
      | null => rfl
      | expunged => rfl
      | mk a =>
        rw [hge] at hfail
        dsimp only at hfail ⊢
        split at hfail
        · simp at hfail
        · split
          · simp_all
          · rfl
    | none =>
      by_cases ha : s.amended = true
      · cases hd : dlookup s k with
        | some e =>
          simp only [CompareAndSwap, heq, ha, if_true, reduceIte, hd] at hfail ⊢
          have hne := getE_dirty_ne_expunged s k e hInv hd
          unfold tryCompareAndSwap at hfail ⊢
          cases hge : getE s e with
          | null => exact loadRes_missLocked_all s hInv ha k2
          | expunged => exact loadRes_missLocked_all s hInv ha k2
          | mk a =>
            rw [hge] at hfail
            dsimp only at hfail ⊢
            split at hfail
            · simp at hfail
            · split
              · simp_all
              · exact loadRes_missLocked_all s hInv ha k2
        | none =>
          simp only [CompareAndSwap, heq, ha, if_true, reduceIte, hd]
      · simp only [CompareAndSwap, heq, ha, Bool.false_eq_true, if_false, reduceIte]
  · intro hfail k2
    rw [load_fst, load_fst]
    cases heq : alookup s.readm k with
    | some e =>
      simp only [CompareAndDelete, heq] at hfail ⊢
      unfold cadLoop at hfail ⊢
      cases hge : getE s e with
      | null => rfl
      | expunged => rfl
      | mk a =>
        rw [hge] at hfail
        dsimp only at hfail ⊢
        split at hfail
        · simp at hfail
        · split
          · simp_all
          · rfl
    | none =>
      by_cases ha : s.amended = true
      · have hmiss := loadRes_missLocked_all s hInv ha k2
        have hgem : ∀ e2, getE (missLocked s) e2 = getE s e2 := getE_missLocked s
        cases hd : dlookup s k with
        | some e =>
          simp only [CompareAndDelete, heq, ha, if_true, reduceIte, hd] at hfail ⊢
          unfold cadLoop at hfail ⊢
          rw [hgem e] at hfail ⊢
          cases hge : getE s e with
          | null => exact hmiss
          | expunged => exact hmiss
          | mk a =>
            rw [hge] at hfail
            dsimp only at hfail ⊢
            split at hfail
            · simp at hfail
            · split
              · simp_all
              · exact hmiss
        | none =>
          simp only [CompareAndDelete, heq, ha, if_true, reduceIte, hd]
          exact hmiss
      · simp only [CompareAndDelete, heq, ha, Bool.false_eq_true, if_false, reduceIte]

/-- Witness for c8: a failing compare on a dirty-only key (with miss
accounting running). -/
theorem c8_witness :
    (∀ k2, (Load (CompareAndSwap exampleDirty 0 (.mk 9) (.mk 7)).2 k2).1 =
      (Load exampleDirty k2).1) ∧
    (∀ k2, (Load (CompareAndDelete exampleDirty 0 (.mk 9)).2 k2).1 =
      (Load exampleDirty k2).1) :=
  ⟨(c8 exampleDirty 0 (.mk 9) (by unfold Inv allB dirtyL; decide)).1 (.mk 7) (by decide),
   (c8 exampleDirty 0 (.mk 9) (by unfold Inv allB dirtyL; decide)).2 (by decide)⟩

end SyncMapGeneric

namespace SyncMapGeneric

variable {K : Type} [DecidableEq K]

theorem entryLoad_snd (p : Ptr) : (entryLoad p).2 = p.isLive := by
  cases p <;> simp [entryLoad, Ptr.isLive]

theorem rangePromote_heap (s : MState K) : (rangePromote s).heap = s.heap := by
  unfold rangePromote
  split <;> rfl

theorem rangeIter_keys_sublist (hp : List Ptr) (f : K → Ptr → Bool) (l : List (K × Nat)) :
    ((rangeIter hp f l).map Prod.fst).Sublist (l.map Prod.fst) := by
  induction l with
  | nil => simp [rangeIter]
  | cons p rest ih =>
    rw [rangeIter]
    cases hload : entryLoad (hp.getD p.2 .null) with
    | mk v ok =>
      cases ok with
      | true =>
        dsimp only
        by_cases hf : f p.1 v = true
        · rw [if_pos hf]
          simpa using List.Sublist.cons₂ p.1 ih
        · rw [if_neg hf]
          simp only [List.map_cons, List.map_nil]
          exact (List.singleton_sublist.2 (by simp)).trans (List.Sublist.refl _)
      | false =>
        dsimp only
        exact ih.trans (List.sublist_cons_self p.1 _)

theorem rangeIter_live (hp : List Ptr) (f : K → Ptr → Bool) (l : List (K × Nat)) :
    ∀ kv ∈ rangeIter hp f l, ∃ a, kv.2 = Ptr.mk a := by
  induction l with
  | nil => simp [rangeIter]
  | cons p rest ih =>
    rw [rangeIter]
    cases hload : entryLoad (hp.getD p.2 .null) with
    | mk v ok =>
      cases ok with
      | true =>
        have hv : ∃ a, v = Ptr.mk a := by
          cases hcell : hp.getD p.2 .null with
          | null => rw [hcell] at hload; simp [entryLoad] at hload
          | expunged => rw [hcell] at hload; simp [entryLoad] at hload
          | mk a =>
            rw [hcell] at hload
            simp only [entryLoad, Prod.mk.injEq] at hload
            exact ⟨a, hload.1.symm⟩
        dsimp only
        by_cases hf : f p.1 v = true
        · rw [if_pos hf]
          intro kv hkv
          rcases List.mem_cons.1 hkv with h1 | h1
          · rw [h1]
            exact hv
          · exact ih kv h1
        · rw [if_neg hf]
          intro kv hkv
          rcases List.mem_singleton.1 hkv with h1
          rw [h1]
          exact hv
      | false =>
        dsimp only
        exact ih

theorem rangeIter_stop (hp : List Ptr) (f : K → Ptr → Bool) (l : List (K × Nat)) :
    ∀ kv ∈ (rangeIter hp f l).dropLast, f kv.1 kv.2 = true := by
  induction l with
  | nil => simp [rangeIter]
  | cons p rest ih =>
    rw [rangeIter]
    cases hload : entryLoad (hp.getD p.2 .null) with
    | mk v ok =>
      cases ok with
      | true =>
        dsimp only
        by_cases hf : f p.1 v = true
        · rw [if_pos hf]
          cases hr : rangeIter hp f rest with
          | nil => simp
          | cons x xs =>
            rw [List.dropLast_cons₂]
            intro kv hkv
            rcases List.mem_cons.1 hkv with h1 | h1
            · rw [h1]
              exact hf
            · rw [← hr] at h1
              exact ih kv h1
        · rw [if_neg hf]
          simp
      | false =>
        dsimp only
        exact ih

theorem rangeIter_const_true (hp : List Ptr) (f : K → Ptr → Bool)
    (hf : ∀ k2 v, f k2 v = true) (l : List (K × Nat)) :
    rangeIter hp f l =
      (l.filter (fun p => (hp.getD p.2 .null).isLive)).map
        (fun p => (p.1, hp.getD p.2 .null)) := by
  induction l with
  | nil => simp [rangeIter]
  | cons p rest ih =>
    rw [rangeIter]
    cases hcell : hp.getD p.2 .null with
    | null =>
      have hR : List.filter (fun q => (hp.getD q.2 Ptr.null).isLive) (p :: rest) =
          List.filter (fun q => (hp.getD q.2 Ptr.null).isLive) rest := by
        rw [List.filter_cons]
        try dsimp only
        rw [hcell]
        simp [Ptr.isLive]
      rw [show entryLoad Ptr.null = (Ptr.null, false) from rfl]
      try dsimp only
      rw [hR]
      exact ih
    | expunged =>
      have hR : List.filter (fun q => (hp.getD q.2 Ptr.null).isLive) (p :: rest) =
          List.filter (fun q => (hp.getD q.2 Ptr.null).isLive) rest := by
        rw [List.filter_cons]
        try dsimp only
        rw [hcell]
        simp [Ptr.isLive]
      rw [show entryLoad Ptr.expunged = (Ptr.null, false) from rfl]
      try dsimp only
      rw [hR]
      exact ih
    | mk a =>
      have hR : List.filter (fun q => (hp.getD q.2 Ptr.null).isLive) (p :: rest) =
          p :: List.filter (fun q => (hp.getD q.2 Ptr.null).isLive) rest := by
        rw [List.filter_cons]
        try dsimp only
        rw [hcell]
        simp [Ptr.isLive]
      rw [show entryLoad (Ptr.mk a) = (Ptr.mk a, true) from rfl]
      try dsimp only
      rw [hf p.1 (Ptr.mk a)]
      simp only [reduceIte]
      rw [hR, List.map_cons]
      try dsimp only
      rw [hcell, ih]

end SyncMapGeneric

namespace SyncMapGeneric

variable {K : Type} [DecidableEq K]

/-- Helper: a key is found by `Load` exactly when the snapshot that
`Range` iterates (after promotion) holds a live cell for it. -/
theorem promoted_live_iff_load (s : MState K) (k2 : K) (hInv : Inv s) :
    (∃ e, alookup (rangePromote s).readm k2 = some e ∧ (getE s e).isLive = true) ↔
      (Load s k2).1.2 = true := by
  obtain ⟨h1, h2, h3, h4, h5, h6, h7, h8, h9⟩ := hInv
  rw [load_fst]
  unfold rangePromote
  by_cases ha : s.amended = true
  · rw [if_pos ha]
    have hds := h4 ha
    constructor
    · rintro ⟨e, hda, hlive⟩
      cases heq : alookup s.readm k2 with
      | some e2 =>
        cases hge : getE s e2 with
        | expunged =>
          obtain ⟨_, hn⟩ := h6 (k2, e2) (alookup_mem _ _ _ heq) hge
          rw [hn] at hda
          cases hda
        | null =>
          have hn := h7 hds (k2, e2) (alookup_mem _ _ _ heq) (by simp [hge])
          rw [hn] at hda
          injection hda with hda2
          rw [← hda2, hge] at hlive
          simp [Ptr.isLive] at hlive
        | mk a =>
          simp [loadRes, visibleEntry, heq, hge, entryLoad]
      | none =>
        have hdl : dlookup s k2 = some e := by rw [dlookup_dirtyL]; exact hda
        cases hge : getE s e with
        | expunged => rw [hge] at hlive; simp [Ptr.isLive] at hlive
        | null => rw [hge] at hlive; simp [Ptr.isLive] at hlive
        | mk a => simp [loadRes, visibleEntry, heq, ha, hdl, hge, entryLoad]
    · intro hfound
      cases heq : alookup s.readm k2 with
      | some e2 =>
        cases hge : getE s e2 with
        | expunged => simp [loadRes, visibleEntry, heq, hge, entryLoad] at hfound
        | null => simp [loadRes, visibleEntry, heq, hge, entryLoad] at hfound
        | mk a =>
          have hn := h7 hds (k2, e2) (alookup_mem _ _ _ heq) (by simp [hge])
          exact ⟨e2, hn, by simp [hge, Ptr.isLive]⟩
      | none =>
        cases hdl : dlookup s k2 with
        | none => simp [loadRes, visibleEntry, heq, ha, hdl] at hfound
        | some e =>
          cases hge : getE s e with
          | expunged => simp [loadRes, visibleEntry, heq, ha, hdl, hge, entryLoad] at hfound
          | null => simp [loadRes, visibleEntry, heq, ha, hdl, hge, entryLoad] at hfound
          | mk a =>
            refine ⟨e, ?_, by simp [hge, Ptr.isLive]⟩
            rw [← dlookup_dirtyL]
            exact hdl
  · rw [if_neg ha]
    constructor
    · rintro ⟨e, hda, hlive⟩
      cases hge : getE s e with
      | expunged => rw [hge] at hlive; simp [Ptr.isLive] at hlive
      | null => rw [hge] at hlive; simp [Ptr.isLive] at hlive
      | mk a => simp [loadRes, visibleEntry, hda, hge, entryLoad]
    · intro hfound
      cases heq : alookup s.readm k2 with
      | some e2 =>
        cases hge : getE s e2 with
        | expunged => simp [loadRes, visibleEntry, heq, hge, entryLoad] at hfound
        | null => simp [loadRes, visibleEntry, heq, hge, entryLoad] at hfound
        | mk a => exact ⟨e2, rfl, by simp [hge, Ptr.isLive]⟩
      | none => simp [loadRes, visibleEntry, heq, ha] at hfound

/-- C5 prototype. -/
theorem c5 (s : MState K) (f : K → Ptr → Bool) (hInv : Inv s) :
    (Range s f).1 = rangePromote s ∧
    (s.amended = true → rangePromote s =
      { s with readm := dirtyL s, amended := false, dirty := none, misses := 0 }) ∧
    (((Range s f).2.map Prod.fst).Nodup) ∧
    (∀ kv ∈ (Range s f).2, ∃ a, kv.2 = Ptr.mk a) ∧
    (∀ kv ∈ (Range s f).2.dropLast, f kv.1 kv.2 = true) ∧
    ((∀ k2 v, f k2 v = true) → (Range s f).2.length =
      ((rangePromote s).readm.filter (fun p => (getE s p.2).isLive)).length) ∧
    (∀ k2 : K, (∃ e, alookup (rangePromote s).readm k2 = some e ∧
      (getE s e).isLive = true) ↔ (Load s k2).1.2 = true) := by
  obtain ⟨h1, h2, h3, h4, h5, h6, h7, h8, h9⟩ := hInv
  have hkeys : ((rangePromote s).readm.map Prod.fst).Nodup := by
    unfold rangePromote
    split
    · exact h2
    · exact h1
  refine ⟨rfl, ?_, ?_, ?_, ?_, ?_, ?_⟩
  · intro ha
    unfold rangePromote
    rw [if_pos ha]
  · exact ((rangeIter_keys_sublist _ f _).nodup) hkeys
  · exact rangeIter_live _ f _
  · exact rangeIter_stop _ f _
  · intro hf
    show (rangeIter (rangePromote s).heap f (rangePromote s).readm).length = _
    rw [rangeIter_const_true _ f hf, rangePromote_heap]
    rw [List.length_map]
    rfl
  · intro k2
    exact promoted_live_iff_load s k2 ⟨h1, h2, h3, h4, h5, h6, h7, h8, h9⟩

/-- Witness for c5. -/
theorem c5_witness :
    (Range exampleDirty (fun _ _ => true)).1 = rangePromote exampleDirty ∧
    (exampleDirty.amended = true → rangePromote exampleDirty =
      { exampleDirty with readm := dirtyL exampleDirty, amended := false, dirty := none, misses := 0 }) ∧
    (((Range exampleDirty (fun _ _ => true)).2.map Prod.fst).Nodup) ∧
    (∀ kv ∈ (Range exampleDirty (fun _ _ => true)).2, ∃ a, kv.2 = Ptr.mk a) ∧
    (∀ kv ∈ (Range exampleDirty (fun _ _ => true)).2.dropLast,
      (fun (_ : Nat) (_ : Ptr) => true) kv.1 kv.2 = true) ∧
    ((∀ (k2 : Nat) (v : Ptr), (fun (_ : Nat) (_ : Ptr) => true) k2 v = true) →
      (Range exampleDirty (fun _ _ => true)).2.length =
      ((rangePromote exampleDirty).readm.filter
        (fun p => (getE exampleDirty p.2).isLive)).length) ∧
    (∀ k2 : Nat, (∃ e, alookup (rangePromote exampleDirty).readm k2 = some e ∧
      (getE exampleDirty e).isLive = true) ↔ (Load exampleDirty k2).1.2 = true) :=
  c5 exampleDirty (fun _ _ => true) (by unfold Inv allB dirtyL; decide)

end SyncMapGeneric

namespace SyncMapGeneric

variable {K K2 : Type} [DecidableEq K] [DecidableEq K2]

theorem alookup_map_inj (g : K → K2) (hinj : ∀ a b, g a = g b → a = b)
    (l : List (K × Nat)) (k : K) :
    alookup (l.map (fun p => (g p.1, p.2))) (g k) = alookup l k := by
  induction l with
  | nil => simp [alookup]
  | cons p l ih =>
    by_cases hp : p.1 = k
    · simp [alookup, hp]
    · have : ¬ (g p.1 = g k) := fun hc => hp (hinj _ _ hc)
      simp [alookup, hp, this, ih]

theorem ainsert_map (g : K → K2) (hinj : ∀ a b, g a = g b → a = b)
    (l : List (K × Nat)) (k : K) (e : Nat) :
    (ainsert l k e).map (fun p => (g p.1, p.2)) =
      ainsert (l.map (fun p => (g p.1, p.2))) (g k) e := by
  induction l with
  | nil => simp [ainsert]
  | cons p l ih =>
    by_cases hp : p.1 = k
    · simp [ainsert, hp]
    · have : ¬ (g p.1 = g k) := fun hc => hp (hinj _ _ hc)
      simp [ainsert, hp, this, ih]

theorem aerase_map (g : K → K2) (hinj : ∀ a b, g a = g b → a = b)
    (l : List (K × Nat)) (k : K) :
    (aerase l k).map (fun p => (g p.1, p.2)) =
      aerase (l.map (fun p => (g p.1, p.2))) (g k) := by
  induction l with
  | nil => simp [aerase]
  | cons p l ih =>
    by_cases hp : p.1 = k
    · simp [aerase, hp]
    · have : ¬ (g p.1 = g k) := fun hc => hp (hinj _ _ hc)
      simp [aerase, hp, this, ih]

theorem keyMap_heap (g : K → K2) (s : MState K) : (keyMap g s).heap = s.heap := rfl

theorem keyMap_amended (g : K → K2) (s : MState K) : (keyMap g s).amended = s.amended := rfl

theorem keyMap_misses (g : K → K2) (s : MState K) : (keyMap g s).misses = s.misses := rfl

theorem keyMap_readm (g : K → K2) (s : MState K) :
    (keyMap g s).readm = s.readm.map (fun p => (g p.1, p.2)) := rfl

theorem getE_keyMap (g : K → K2) (s : MState K) (e : Nat) :
    getE (keyMap g s) e = getE s e := rfl

theorem alookup_keyMap (g : K → K2) (hinj : ∀ a b, g a = g b → a = b)
    (s : MState K) (k : K) :
    alookup (keyMap g s).readm (g k) = alookup s.readm k :=
  alookup_map_inj g hinj s.readm k

theorem dirtyL_keyMap (g : K → K2) (s : MState K) :
    dirtyL (keyMap g s) = (dirtyL s).map (fun p => (g p.1, p.2)) := by
  cases hdd : s.dirty <;> simp [dirtyL, keyMap, hdd]

theorem dlookup_keyMap (g : K → K2) (hinj : ∀ a b, g a = g b → a = b)
    (s : MState K) (k : K) :
    dlookup (keyMap g s) (g k) = dlookup s k := by
  cases hdd : s.dirty with
  | none => simp [dlookup, keyMap, hdd]
  | some d => simp [dlookup, keyMap, hdd, alookup_map_inj g hinj]

theorem setE_keyMap (g : K → K2) (s : MState K) (e : Nat) (p : Ptr) :
    setE (keyMap g s) e p = keyMap g (setE s e p) := rfl

theorem dinsert_keyMap (g : K → K2) (hinj : ∀ a b, g a = g b → a = b)
    (s : MState K) (k : K) (e : Nat) :
    dinsert (keyMap g s) (g k) e = keyMap g (dinsert s k e) := by
  cases hdd : s.dirty with
  | none => simp [dinsert, keyMap, hdd]
  | some d => simp [dinsert, keyMap, hdd, ainsert_map g hinj]

theorem derase_keyMap (g : K → K2) (hinj : ∀ a b, g a = g b → a = b)
    (s : MState K) (k : K) :
    derase (keyMap g s) (g k) = keyMap g (derase s k) := by
  cases hdd : s.dirty with
  | none => simp [derase, keyMap, hdd]
  | some d => simp [derase, keyMap, hdd, aerase_map g hinj]

theorem missLocked_keyMap (g : K → K2) (s : MState K) :
    missLocked (keyMap g s) = keyMap g (missLocked s) := by
  unfold missLocked
  rw [dirtyL_keyMap, List.length_map, keyMap_misses]
  split
  · rfl
  · simp [keyMap]
    try exact dirtyL_keyMap g s

theorem expungeFold_map (g : K → K2) (hp : List Ptr) (acc l : List (K × Nat)) :
    expungeFold (hp, acc.map (fun p => (g p.1, p.2))) (l.map (fun p => (g p.1, p.2))) =
      ((expungeFold (hp, acc) l).1,
       (expungeFold (hp, acc) l).2.map (fun p => (g p.1, p.2))) := by
  induction l generalizing hp acc with
  | nil => simp [expungeFold]
  | cons p rest ih =>
    rw [List.map_cons, expungeFold, expungeFold]
    dsimp only
    by_cases hb : (tryExpungeH hp p.2).1 = true
    · rw [hb]
      simp only [if_true, reduceIte]
      exact ih _ _
    · rw [Bool.not_eq_true] at hb
      rw [hb]
      simp only [Bool.false_eq_true, if_false, reduceIte]
      rw [show (acc.map (fun p => (g p.1, p.2)) ++ [(g p.1, p.2)]) =
        ((acc ++ [p]).map (fun p => (g p.1, p.2))) by simp]
      exact ih _ _

theorem dirtyLocked_keyMap (g : K → K2) (s : MState K) :
    dirtyLocked (keyMap g s) = keyMap g (dirtyLocked s) := by
  unfold dirtyLocked
  cases hdd : s.dirty with
  | some d =>
    have : (keyMap g s).dirty = some (d.map (fun p => (g p.1, p.2))) := by
      simp [keyMap, hdd]
    rw [this]
  | none =>
    have hx : (keyMap g s).dirty = none := by simp [keyMap, hdd]
    rw [hx]
    have hfold := expungeFold_map g s.heap [] s.readm
    simp only [List.map_nil] at hfold
    rw [show (keyMap g s).heap = s.heap from rfl, show (keyMap g s).readm =
      s.readm.map (fun p => (g p.1, p.2)) from rfl, hfold]
    simp [keyMap]

theorem rangePromote_keyMap (g : K → K2) (s : MState K) :
    rangePromote (keyMap g s) = keyMap g (rangePromote s) := by
  unfold rangePromote
  rw [keyMap_amended]
  split
  · simp [keyMap]
    exact dirtyL_keyMap g s
  · rfl

theorem clear_keyMap (g : K → K2) (s : MState K) :
    Clear (keyMap g s) = keyMap g (Clear s) := by
  unfold Clear
  rw [keyMap_readm, keyMap_amended]
  by_cases hc : s.readm = [] ∧ s.amended = false
  · rw [if_pos (by simp [hc.1, hc.2]), if_pos hc]
  · rw [if_neg (by
      intro hx
      exact hc ⟨by cases hy : s.readm with
        | nil => rfl
        | cons a l => rw [hy] at hx; simp at hx, hx.2⟩), if_neg hc]
    cases hdd : s.dirty <;> simp [keyMap, hdd]

end SyncMapGeneric

namespace SyncMapGeneric

variable {K K2 : Type} [DecidableEq K] [DecidableEq K2]

theorem tryCAS_keyMap (g : K → K2) (s : MState K) (e : Nat) (old nw : Ptr) :
    tryCompareAndSwap (keyMap g s) e old nw =
      ((tryCompareAndSwap s e old nw).1, keyMap g (tryCompareAndSwap s e old nw).2) := by
  unfold tryCompareAndSwap
  rw [getE_keyMap]
  cases getE s e
  · rfl
  · rfl
  · dsimp only
    split <;> rfl

theorem cadLoop_keyMap (g : K → K2) (s : MState K) (e : Nat) (old : Ptr) :
    cadLoop (keyMap g s) e old = ((cadLoop s e old).1, keyMap g (cadLoop s e old).2) := by
  unfold cadLoop
  rw [getE_keyMap]
  cases getE s e
  · rfl
  · rfl
  · dsimp only
    split <;> rfl

theorem trySwap_keyMap (g : K → K2) (s : MState K) (e : Nat) (v : Ptr) :
    trySwap (keyMap g s) e v = ((trySwap s e v).1, keyMap g (trySwap s e v).2) := by
  unfold trySwap
  rw [getE_keyMap]
  cases getE s e <;> rfl

theorem tryLoadOrStore_keyMap (g : K → K2) (s : MState K) (e : Nat) (v : Ptr) :
    tryLoadOrStore (keyMap g s) e v =
      ((tryLoadOrStore s e v).1, keyMap g (tryLoadOrStore s e v).2) := by
  unfold tryLoadOrStore
  rw [getE_keyMap]
  cases getE s e <;> rfl

theorem entryDelete_keyMap (g : K → K2) (s : MState K) (e : Nat) :
    entryDelete (keyMap g s) e = ((entryDelete s e).1, keyMap g (entryDelete s e).2) := by
  unfold entryDelete
  rw [getE_keyMap]
  cases getE s e <;> rfl

theorem unexpunge_keyMap (g : K → K2) (s : MState K) (e : Nat) :
    unexpungeLocked (keyMap g s) e =
      ((unexpungeLocked s e).1, keyMap g (unexpungeLocked s e).2) := by
  unfold unexpungeLocked
  rw [getE_keyMap]
  split <;> rfl

theorem swapLocked_keyMap (g : K → K2) (s : MState K) (e : Nat) (v : Ptr) :
    swapLocked (keyMap g s) e v = ((swapLocked s e v).1, keyMap g (swapLocked s e v).2) := rfl

theorem Load_keyMap (g : K → K2) (hinj : ∀ a b, g a = g b → a = b) (s : MState K) (k : K) :
    Load (keyMap g s) (g k) = ((Load s k).1, keyMap g (Load s k).2) := by
  unfold Load
  rw [alookup_keyMap g hinj, keyMap_amended, dlookup_keyMap g hinj]
  cases heq : alookup s.readm k with
  | some e => rfl
  | none =>
    by_cases ha : s.amended = true
    · rw [ha]
      simp only [if_true, reduceIte]
      cases hd : dlookup s k with
      | some e =>
        dsimp only
        rw [missLocked_keyMap]
        rfl
      | none =>
        dsimp only
        rw [missLocked_keyMap]
    · rw [Bool.not_eq_true] at ha
      rw [ha]
      rfl

end SyncMapGeneric

namespace SyncMapGeneric

variable {K K2 : Type} [DecidableEq K] [DecidableEq K2]

theorem keyMap_heapAppend (g : K → K2) (s : MState K) (v : Ptr) :
    ({ keyMap g s with heap := (keyMap g s).heap ++ [v] } : MState K2) =
      keyMap g { s with heap := s.heap ++ [v] } := rfl

theorem keyMap_amendedTrue (g : K → K2) (s : MState K) :
    ({ keyMap g s with amended := true } : MState K2) =
      keyMap g { s with amended := true } := rfl

theorem keyMap_heapLen (g : K → K2) (s : MState K) :
    (keyMap g s).heap.length = s.heap.length := rfl

theorem keyMap_newRec (g : K → K2) (s : MState K) (v : Ptr) (b : Bool) :
    ({ heap := (keyMap g s).heap ++ [v], readm := (keyMap g s).readm, amended := b, dirty := (keyMap g s).dirty, misses := (keyMap g s).misses } : MState K2) = keyMap g ({ heap := s.heap ++ [v], readm := s.readm, amended := b, dirty := s.dirty, misses := s.misses } : MState K) := rfl

theorem swapSlow_keyMap (g : K → K2) (hinj : ∀ a b, g a = g b → a = b)
    (s : MState K) (k : K) (v : Ptr) :
    swapSlow (keyMap g s) (g k) v = ((swapSlow s k v).1, keyMap g (swapSlow s k v).2) := by
  unfold swapSlow
  rw [alookup_keyMap g hinj, dlookup_keyMap g hinj, keyMap_amended]
  cases heq : alookup s.readm k with
  | some e =>
    dsimp only
    rw [unexpunge_keyMap g s e]
    dsimp only
    by_cases hu : (unexpungeLocked s e).1 = true
    · rw [hu]
      simp only [if_true, reduceIte]
      rw [dinsert_keyMap g hinj, swapLocked_keyMap g]
      dsimp only
      by_cases hc : (swapLocked (dinsert (unexpungeLocked s e).2 k e) e v).1 ≠ Ptr.null <;>
        simp [hc]
    · rw [Bool.not_eq_true] at hu
      rw [hu]
      simp only [Bool.false_eq_true, if_false, reduceIte]
      rw [swapLocked_keyMap g]
      dsimp only
      by_cases hc : (swapLocked (unexpungeLocked s e).2 e v).1 ≠ Ptr.null <;>
        simp [hc]
  | none =>
    dsimp only
    cases hd : dlookup s k with
    | some e =>
      dsimp only
      rw [swapLocked_keyMap g]
      dsimp only
      by_cases hc : (swapLocked s e v).1 ≠ Ptr.null <;> simp [hc]
    | none =>
      dsimp only
      by_cases ha : s.amended = true
      · rw [ha]
        simp only [if_true, reduceIte]
        rw [keyMap_heapAppend, keyMap_heapLen, dinsert_keyMap g hinj]
      · rw [Bool.not_eq_true] at ha
        rw [ha]
        simp only [Bool.false_eq_true, if_false, reduceIte]
        rw [dirtyLocked_keyMap, keyMap_newRec, keyMap_heapLen, dinsert_keyMap g hinj]

theorem Swap_keyMap (g : K → K2) (hinj : ∀ a b, g a = g b → a = b)
    (s : MState K) (k : K) (v : Ptr) :
    Swap (keyMap g s) (g k) v = ((Swap s k v).1, keyMap g (Swap s k v).2) := by
  unfold Swap
  rw [alookup_keyMap g hinj]
  cases heq : alookup s.readm k with
  | some e =>
    dsimp only
    rw [trySwap_keyMap g s e v]
    cases hts : trySwap s e v with
    | mk o t =>
      cases o with
      | none =>
        dsimp only
        exact swapSlow_keyMap g hinj s k v
      | some p =>
        dsimp only
        by_cases hp : p = Ptr.null <;> simp [hp]
  | none => exact swapSlow_keyMap g hinj s k v

theorem loadOrStoreSlow_keyMap (g : K → K2) (hinj : ∀ a b, g a = g b → a = b)
    (s : MState K) (k : K) (v : Ptr) :
    loadOrStoreSlow (keyMap g s) (g k) v =
      ((loadOrStoreSlow s k v).1, keyMap g (loadOrStoreSlow s k v).2) := by
  unfold loadOrStoreSlow
  rw [alookup_keyMap g hinj, dlookup_keyMap g hinj, keyMap_amended]
  cases heq : alookup s.readm k with
  | some e =>
    dsimp only
    rw [unexpunge_keyMap g s e]
    dsimp only
    by_cases hu : (unexpungeLocked s e).1 = true
    · rw [hu]
      simp only [if_true, reduceIte]
      rw [dinsert_keyMap g hinj, tryLoadOrStore_keyMap g]
    · rw [Bool.not_eq_true] at hu
      rw [hu]
      simp only [Bool.false_eq_true, if_false, reduceIte]
      rw [tryLoadOrStore_keyMap g]
  | none =>
    dsimp only
    cases hd : dlookup s k with
    | some e =>
      dsimp only
      rw [tryLoadOrStore_keyMap g]
      dsimp only
      rw [missLocked_keyMap]
    | none =>
      dsimp only
      by_cases ha : s.amended = true
      · rw [ha]
        simp only [if_true, reduceIte]
        rw [keyMap_heapAppend, keyMap_heapLen, dinsert_keyMap g hinj]
      · rw [Bool.not_eq_true] at ha
        rw [ha]
        simp only [Bool.false_eq_true, if_false, reduceIte]
        rw [dirtyLocked_keyMap, keyMap_newRec, keyMap_heapLen, dinsert_keyMap g hinj]

theorem LoadOrStore_keyMap (g : K → K2) (hinj : ∀ a b, g a = g b → a = b)
    (s : MState K) (k : K) (v : Ptr) :
    LoadOrStore (keyMap g s) (g k) v =
      ((LoadOrStore s k v).1, keyMap g (LoadOrStore s k v).2) := by
  unfold LoadOrStore
  rw [alookup_keyMap g hinj]
  cases heq : alookup s.readm k with
  | some e =>
    dsimp only
    rw [tryLoadOrStore_keyMap g]
    dsimp only
    by_cases hc : (tryLoadOrStore s e v).1.2.2 = true
    · simp only [hc, if_true, reduceIte]
    · simp only [hc, Bool.false_eq_true, if_false, reduceIte]
      exact loadOrStoreSlow_keyMap g hinj s k v
  | none => exact loadOrStoreSlow_keyMap g hinj s k v

theorem LoadAndDelete_keyMap (g : K → K2) (hinj : ∀ a b, g a = g b → a = b)
    (s : MState K) (k : K) :
    LoadAndDelete (keyMap g s) (g k) =
      ((LoadAndDelete s k).1, keyMap g (LoadAndDelete s k).2) := by
  unfold LoadAndDelete
  rw [alookup_keyMap g hinj, dlookup_keyMap g hinj, keyMap_amended]
  cases heq : alookup s.readm k with
  | some e => exact entryDelete_keyMap g s e
  | none =>
    by_cases ha : s.amended = true
    · rw [ha]
      simp only [if_true, reduceIte]
      rw [derase_keyMap g hinj, missLocked_keyMap]
      cases hd : dlookup s k with
      | some e =>
        dsimp only
        rw [entryDelete_keyMap g]
      | none => rfl
    · rw [Bool.not_eq_true] at ha
      rw [ha]
      rfl

theorem CompareAndSwap_keyMap (g : K → K2) (hinj : ∀ a b, g a = g b → a = b)
    (s : MState K) (k : K) (old nw : Ptr) :
    CompareAndSwap (keyMap g s) (g k) old nw =
      ((CompareAndSwap s k old nw).1, keyMap g (CompareAndSwap s k old nw).2) := by
  unfold CompareAndSwap
  rw [alookup_keyMap g hinj, dlookup_keyMap g hinj, keyMap_amended]
  cases heq : alookup s.readm k with
  | some e => exact tryCAS_keyMap g s e old nw
  | none =>
    by_cases ha : s.amended = true
    · rw [ha]
      simp only [if_true, reduceIte]
      cases hd : dlookup s k with
      | some e =>
        dsimp only
        rw [tryCAS_keyMap g]
        dsimp only
        rw [missLocked_keyMap]
      | none => rfl
    · rw [Bool.not_eq_true] at ha
      rw [ha]
      rfl

theorem CompareAndDelete_keyMap (g : K → K2) (hinj : ∀ a b, g a = g b → a = b)
    (s : MState K) (k : K) (old : Ptr) :
    CompareAndDelete (keyMap g s) (g k) old =
      ((CompareAndDelete s k old).1, keyMap g (CompareAndDelete s k old).2) := by
  unfold CompareAndDelete
  rw [alookup_keyMap g hinj, dlookup_keyMap g hinj, keyMap_amended]
  cases heq : alookup s.readm k with
  | some e => exact cadLoop_keyMap g s e old
  | none =>
    by_cases ha : s.amended = true
    · rw [ha]
      simp only [if_true, reduceIte]
      rw [missLocked_keyMap]
      cases hd : dlookup s k with
      | some e =>
        dsimp only
        rw [cadLoop_keyMap g]
      | none => rfl
    · rw [Bool.not_eq_true] at ha
      rw [ha]
      rfl

theorem rangeIter_keyMap (g : K → K2) (g2 : K2 → K) (hret : ∀ a, g2 (g a) = a)
    (hp : List Ptr) (f : K → Ptr → Bool) (l : List (K × Nat)) :
    rangeIter hp (fun k2 p => f (g2 k2) p) (l.map (fun p => (g p.1, p.2))) =
      (rangeIter hp f l).map (fun p => (g p.1, p.2)) := by
  induction l with
  | nil => simp [rangeIter]
  | cons p rest ih =>
    rw [List.map_cons, rangeIter, rangeIter]
    dsimp only
    cases hload : entryLoad (hp.getD p.2 .null) with
    | mk v ok =>
      cases ok with
      | true =>
        dsimp only
        rw [hret p.1]
        by_cases hf : f p.1 v = true
        · simp only [hf, if_true, reduceIte, List.map_cons]
          rw [ih]
        · simp only [hf, Bool.false_eq_true, if_false, reduceIte]
          rfl
      | false =>
        dsimp only
        exact ih

theorem Range_keyMap (g : K → K2) (g2 : K2 → K) (hret : ∀ a, g2 (g a) = a)
    (s : MState K) (f : K → Ptr → Bool) :
    Range (keyMap g s) (fun k2 p => f (g2 k2) p) =
      (keyMap g (Range s f).1, (Range s f).2.map (fun p => (g p.1, p.2))) := by
  unfold Range
  rw [rangePromote_keyMap]
  dsimp only
  rw [show (keyMap g (rangePromote s)).heap = (rangePromote s).heap from rfl,
    keyMap_readm, rangeIter_keyMap g g2 hret]

theorem Store_keyMap (g : K → K2) (hinj : ∀ a b, g a = g b → a = b)
    (s : MState K) (k : K) (v : Ptr) :
    Store (keyMap g s) (g k) v = keyMap g (Store s k v) := by
  unfold Store
  rw [Swap_keyMap g hinj]

theorem Delete_keyMap (g : K → K2) (hinj : ∀ a b, g a = g b → a = b)
    (s : MState K) (k : K) :
    Delete (keyMap g s) (g k) = keyMap g (Delete s k) := by
  unfold Delete
  rw [LoadAndDelete_keyMap g hinj]

theorem step_keyMap (g : K → K2) (g2 : K2 → K) (hret : ∀ a, g2 (g a) = a)
    (s : MState K) (op : Op K) :
    step (keyMap g s) (opMap g g2 op) = (outMap g (step s op).1, keyMap g (step s op).2) := by
  have hinj : ∀ a b : K, g a = g b → a = b := by
    intro a b h
    have h2 := congrArg g2 h
    rwa [hret, hret] at h2
  cases op with
  | loadOp k =>
    simp only [step, opMap, Load_keyMap g hinj, outMap]
  | storeOp k v =>
    simp only [step, opMap, Store_keyMap g hinj, outMap]
  | loadOrStoreOp k v =>
    simp only [step, opMap, LoadOrStore_keyMap g hinj, outMap]
  | loadAndDeleteOp k =>
    simp only [step, opMap, LoadAndDelete_keyMap g hinj, outMap]
  | deleteOp k =>
    simp only [step, opMap, Delete_keyMap g hinj, outMap]
  | swapOp k v =>
    simp only [step, opMap, Swap_keyMap g hinj, outMap]
  | casOp k o n =>
    simp only [step, opMap, CompareAndSwap_keyMap g hinj, outMap]
  | cadOp k o =>
    simp only [step, opMap, CompareAndDelete_keyMap g hinj, outMap]
  | rangeOp f =>
    simp only [step, opMap, Range_keyMap g g2 hret, outMap]
  | clearOp =>
    simp only [step, opMap, clear_keyMap, outMap]

theorem runOps_keyMap (g : K → K2) (g2 : K2 → K) (hret : ∀ a, g2 (g a) = a)
    (s : MState K) (ops : List (Op K)) :
    runOps (keyMap g s) (ops.map (opMap g g2)) =
      ((runOps s ops).1.map (outMap g), keyMap g (runOps s ops).2) := by
  induction ops generalizing s with
  | nil => simp [runOps]
  | cons op rest ih =>
    rw [List.map_cons, runOps, runOps]
    dsimp only
    rw [step_keyMap g g2 hret]
    dsimp only
    rw [ih]
    dsimp only
    rw [List.map_cons]

/-- C9: `KVMap[K, V]` and `VMap[V]` are one and the same algorithm.  The
embedding of the two containers is a single parametric definition
instantiated at two key types; for any injection `g` of the fixed key
type into the dynamic key type (with retraction `g2`), running any
sequence of public operations (Load, Store, LoadOrStore, LoadAndDelete,
Delete, Swap, CompareAndSwap, CompareAndDelete, Range, Clear) on the
dynamic-key container from its zero value, with every key wrapped
through `g`, returns at every step exactly the results of the fixed-key
container on the unwrapped sequence, and reaches the key-wrapped image
of the fixed-key container's state. -/
theorem c9_two_variants_one_algorithm (g : K → K2) (g2 : K2 → K)
    (hret : ∀ a, g2 (g a) = a) (ops : List (Op K)) :
    runOps (initState K2) (ops.map (opMap g g2)) =
      ((runOps (initState K) ops).1.map (outMap g), keyMap g (runOps (initState K) ops).2) := by
  have hi : keyMap g (initState K) = initState K2 := rfl
  rw [← hi]
  exact runOps_keyMap g g2 hret (initState K) ops

/-- Concrete instance of C9: the key injection `n + 1` with retraction
`n - 1`, over a five-operation script. -/
theorem c9_two_variants_one_algorithm_witness :
    (∀ a : Nat, (fun n => n - 1) ((fun n : Nat => n + 1) a) = a) ∧
    runOps (initState Nat)
        (([Op.storeOp 1 (some 10), Op.loadOp 1, Op.loadOrStoreOp 2 (some 20), Op.loadAndDeleteOp 1, Op.casOp 2 (some 20) (some 30)]).map (opMap (fun n : Nat => n + 1) (fun n => n - 1))) =
      ((runOps (initState Nat) [Op.storeOp 1 (some 10), Op.loadOp 1, Op.loadOrStoreOp 2 (some 20), Op.loadAndDeleteOp 1, Op.casOp 2 (some 20) (some 30)]).1.map (outMap (fun n : Nat => n + 1)),
        keyMap (fun n : Nat => n + 1) (runOps (initState Nat) [Op.storeOp 1 (some 10), Op.loadOp 1, Op.loadOrStoreOp 2 (some 20), Op.loadAndDeleteOp 1, Op.casOp 2 (some 20) (some 30)]).2) :=
  ⟨fun a => Nat.add_sub_cancel a 1,
    c9_two_variants_one_algorithm (fun n : Nat => n + 1) (fun n => n - 1)
      (fun a => Nat.add_sub_cancel a 1)
      [Op.storeOp 1 (some 10), Op.loadOp 1, Op.loadOrStoreOp 2 (some 20), Op.loadAndDeleteOp 1, Op.casOp 2 (some 20) (some 30)]⟩

end SyncMapGeneric
